import Mathlib

/-!
# Stock broker dashboard: subscription-aware fan-out (`server.js`)

A shallow embedding of the server's in-memory stores (`users`, `stockPrices`,
`clients`), of its request handlers and of its two fan-out helpers, followed by
the properties of the specification that are settled on it.

JavaScript objects that are shared by reference (the `Set` held by a user
object and by every `clients` entry of that user) live on an explicit heap and
are named by a `Ref`; a `Map` and a `Set` keep their entries in insertion
order and hold each key once.
-/

namespace StockBroker

/-! ## `Set` and `Map` -/

/-- A JavaScript `Set` of strings: its values in insertion order, each once. -/
structure JSSet where
  elems : List String
  nodup : elems.Nodup

namespace JSSet

theorem ext_elems {a b : JSSet} (h : a.elems = b.elems) : a = b := by
  cases a; cases b; cases h; rfl

instance : DecidableEq JSSet := fun a b =>
  decidable_of_iff (a.elems = b.elems) ⟨ext_elems, fun h => by rw [h]⟩

/-- The value of `new Set()`. -/
def empty : JSSet := ⟨[], List.nodup_nil⟩

/-- The method `set.has(t)`. -/
def has (s : JSSet) (t : String) : Bool := decide (t ∈ s.elems)

theorem nodup_append_singleton {l : List String} {t : String} (hl : l.Nodup) (ht : t ∉ l) :
    (l ++ [t]).Nodup := by
  rw [List.nodup_append]
  refine ⟨hl, List.nodup_singleton t, ?_⟩
  intro a ha hb
  rw [List.mem_singleton] at hb
  exact ht (hb ▸ ha)

/-- The method `set.add(t)`: a value already present stays where it is, a new one goes last. -/
def add (s : JSSet) (t : String) : JSSet :=
  if h : t ∈ s.elems then s else ⟨s.elems ++ [t], nodup_append_singleton s.nodup h⟩

/-- The method `set.delete(t)`. -/
def delete (s : JSSet) (t : String) : JSSet := ⟨s.elems.erase t, s.nodup.erase t⟩

/-- The value of `new Set(array)`: the values of the array, added one by one. -/
def ofArray (a : List String) : JSSet := a.foldl add empty

/-- The value of `Array.from(set)`. -/
def toArray (s : JSSet) : List String := s.elems

end JSSet

/-- The entries of a map after `set(k, v)`: an existing key keeps its place and takes the new
value, a new key goes last. -/
def setEntries {K V : Type} [DecidableEq K] : List (K × V) → K → V → List (K × V)
  | [], k, v => [(k, v)]
  | (k', v') :: rest, k, v =>
    if k' = k then (k, v) :: rest else (k', v') :: setEntries rest k v

theorem mem_keys_setEntries {K V : Type} [DecidableEq K] (l : List (K × V)) (k : K) (v : V)
    (a : K) : a ∈ (setEntries l k v).map Prod.fst ↔ a ∈ l.map Prod.fst ∨ a = k := by
  induction l with
  | nil => simp [setEntries]
  | cons e rest ih =>
    obtain ⟨k', v'⟩ := e
    by_cases h : k' = k
    · subst h
      simp only [setEntries, if_true, List.map_cons, List.mem_cons]
      tauto
    · simp only [setEntries, if_neg h, List.map_cons, List.mem_cons, ih]
      tauto

theorem nodup_keys_setEntries {K V : Type} [DecidableEq K] (l : List (K × V)) (k : K) (v : V)
    (hl : (l.map Prod.fst).Nodup) : ((setEntries l k v).map Prod.fst).Nodup := by
  induction l with
  | nil => simp [setEntries]
  | cons e rest ih =>
    obtain ⟨k', v'⟩ := e
    rw [List.map_cons, List.nodup_cons] at hl
    by_cases h : k' = k
    · subst h
      simpa [setEntries] using hl
    · simp only [setEntries, if_neg h, List.map_cons, List.nodup_cons, mem_keys_setEntries]
      exact ⟨fun hc => hc.elim hl.1 h, ih hl.2⟩

theorem nodup_keys_filter {K V : Type} (l : List (K × V)) (p : K × V → Bool)
    (hl : (l.map Prod.fst).Nodup) : ((l.filter p).map Prod.fst).Nodup :=
  ((List.filter_sublist l).map Prod.fst).nodup hl

/-- A JavaScript `Map`: its entries in insertion order, each key once. -/
structure JSMap (K V : Type) [DecidableEq K] where
  entries : List (K × V)
  nodup : (entries.map Prod.fst).Nodup

namespace JSMap

variable {K V : Type} [DecidableEq K]

theorem ext_entries {a b : JSMap K V} (h : a.entries = b.entries) : a = b := by
  cases a; cases b; cases h; rfl

instance [DecidableEq V] : DecidableEq (JSMap K V) := fun a b =>
  decidable_of_iff (a.entries = b.entries) ⟨ext_entries, fun h => by rw [h]⟩

/-- The value of `new Map()`. -/
def empty : JSMap K V := ⟨[], List.nodup_nil⟩

/-- The method `map.get(k)`; `none` stands for `undefined`. -/
def get (m : JSMap K V) (k : K) : Option V :=
  (m.entries.find? (fun e => decide (e.1 = k))).map Prod.snd

/-- The method `map.has(k)`. -/
def has (m : JSMap K V) (k : K) : Bool := (m.get k).isSome

/-- The method `map.set(k, v)`. -/
def set (m : JSMap K V) (k : K) (v : V) : JSMap K V :=
  ⟨setEntries m.entries k v, nodup_keys_setEntries m.entries k v m.nodup⟩

/-- The method `map.delete(k)`. -/
def delete (m : JSMap K V) (k : K) : JSMap K V :=
  ⟨m.entries.filter (fun e => !decide (e.1 = k)), nodup_keys_filter _ _ m.nodup⟩

end JSMap

/-! ## The stores of `server.js` -/

/-- A reference to a `Set` object. -/
abbrev Ref := Nat

/-- The identity of a WebSocket object `ws`. -/
abbrev WS := Nat

/-- The constant `SUPPORTED_STOCKS`. -/
def SUPPORTED_STOCKS : List String := ["GOOG", "TSLA", "AMZN", "META", "NVDA"]

/-- The constant `WebSocket.OPEN`. -/
def OPEN : Nat := 1

/-- A value of `users`: the object `{ email, subscriptions }`, whose `subscriptions` is a
reference to a `Set`. -/
structure User where
  email : String
  subscriptions : Ref
deriving DecidableEq

/-- A value of `clients`: the object `{ email, subscriptions }` built on registration; its
`subscriptions` is the reference found in the user object, not a copy of the set. -/
structure ClientData where
  email : String
  subscriptions : Ref
deriving DecidableEq

/-- The in-memory stores: the heap of `Set` objects with the next free reference, and the maps
`users`, `stockPrices` and `clients`. -/
structure State where
  heap : Ref → JSSet
  nextRef : Ref
  users : JSMap String User
  stockPrices : JSMap String ℚ
  clients : JSMap WS ClientData

/-- What the server reads from outside while it handles one event: the `readyState` of every
socket and the clock read by `new Date()` for the message sent to a socket. -/
structure Env where
  readyState : WS → Nat
  clock : WS → String

/-- The messages passed to `ws.send`, as the JSON document that goes out: a property whose
value is `undefined` is left out by `JSON.stringify`. -/
inductive Message where
  | initial_prices (prices : List (String × ℚ)) (subscriptions : List String)
  | price_update (ticker : String) (price : ℚ) (timestamp : String)
  | subscription_added (ticker : String) (price : Option ℚ)
  | subscription_removed (ticker : String)
deriving DecidableEq

/-- The answer of a REST handler: `res.json` with `success: true`, or `res.status(code).json`
with an `error` text and, for an unsupported stock, the `supported` list. -/
inductive Response where
  | success (email : Option String) (subscriptions : List String)
  | failure (status : Nat) (error : String) (supported : Option (List String))
deriving DecidableEq

/-- The HTTP status of an answer. -/
def Response.status : Response → Nat
  | .success _ _ => 200
  | .failure code _ _ => code

/-! ## Fan-out helpers -/

/-- The function `notifyUserClients(email, message)`: the sends it makes, in iteration order of
`clients`. -/
def notifyUserClients (env : Env) (clients : JSMap WS ClientData) (email : String)
    (message : Message) : List (WS × Message) :=
  clients.entries.filterMap fun entry =>
    if entry.2.email = email ∧ env.readyState entry.1 = OPEN then some (entry.1, message)
    else none

/-- The function `broadcastPriceUpdate(ticker, price)`: the sends it makes, in iteration order
of `clients`. -/
def broadcastPriceUpdate (env : Env) (s : State) (ticker : String) (price : ℚ) :
    List (WS × Message) :=
  s.clients.entries.filterMap fun entry =>
    if (s.heap entry.2.subscriptions).has ticker = true ∧ env.readyState entry.1 = OPEN then
      some (entry.1, Message.price_update ticker price (env.clock entry.1))
    else none

/-- The messages of a list of sends that went to connection `ws`, in order. -/
def sentTo (sent : List (WS × Message)) (ws : WS) : List Message :=
  (sent.filter fun m => decide (m.1 = ws)).map Prod.snd

/-! ## REST handlers

`saveUserData()` only schedules a write of `users` to disk and leaves the stores as they are;
it has no counterpart below. -/

/-- The handler of `POST /api/login`. -/
def login (s : State) (email : String) : State × Response :=
  if email = "" ∨ '@' ∉ email.toList then
    (s, Response.failure 400 "Valid email is required" none)
  else
    let s1 : State :=
      if s.users.has email = true then s
      else
        { s with
          heap := Function.update s.heap s.nextRef JSSet.empty
          nextRef := s.nextRef + 1
          users := s.users.set email ⟨email, s.nextRef⟩ }
    match s1.users.get email with
    | some user => (s1, Response.success (some user.email) (s1.heap user.subscriptions).toArray)
    | none => (s1, Response.failure 500 "TypeError" none)

/-- The handler of `POST /api/subscribe`. -/
def subscribe (env : Env) (s : State) (email ticker : String) :
    State × List (WS × Message) × Response :=
  if email = "" ∨ ticker = "" then
    (s, [], Response.failure 400 "Email and ticker are required" none)
  else if ticker ∉ SUPPORTED_STOCKS then
    (s, [], Response.failure 400 "Stock not supported" (some SUPPORTED_STOCKS))
  else
    match s.users.get email with
    | none => (s, [], Response.failure 404 "User not found. Please login first." none)
    | some user =>
      let s1 : State :=
        { s with
          heap := Function.update s.heap user.subscriptions
            ((s.heap user.subscriptions).add ticker) }
      let sent := notifyUserClients env s1.clients email
        (Message.subscription_added ticker (s1.stockPrices.get ticker))
      (s1, sent, Response.success none (s1.heap user.subscriptions).toArray)

/-- The handler of `POST /api/unsubscribe`. -/
def unsubscribe (env : Env) (s : State) (email ticker : String) :
    State × List (WS × Message) × Response :=
  match s.users.get email with
  | none => (s, [], Response.failure 404 "User not found" none)
  | some user =>
    let s1 : State :=
      { s with
        heap := Function.update s.heap user.subscriptions
          ((s.heap user.subscriptions).delete ticker) }
    let sent := notifyUserClients env s1.clients email (Message.subscription_removed ticker)
    (s1, sent, Response.success none (s1.heap user.subscriptions).toArray)

/-! ## WebSocket handlers -/

/-- The `message` handler of a socket `ws` for a message `{ type: 'register', email }`. -/
def register (s : State) (ws : WS) (email : String) : State × List (WS × Message) :=
  match s.users.get email with
  | none => (s, [])
  | some user =>
    let s1 : State := { s with clients := s.clients.set ws ⟨email, user.subscriptions⟩ }
    let subscriptions := s1.heap user.subscriptions
    let prices := subscriptions.elems.filterMap fun ticker =>
      (s1.stockPrices.get ticker).map fun price => (ticker, price)
    (s1, [(ws, Message.initial_prices prices subscriptions.toArray)])

/-- The `close` handler of a socket `ws`. -/
def close (s : State) (ws : WS) : State :=
  { s with clients := s.clients.delete ws }

/-! ## The price tick -/

/-- One round of the loop over `SUPPORTED_STOCKS` in the interval callback, for `ticker`, with
`r` the value of `Math.random()`. Every supported ticker has a price from start-up on, so the
`none` arm is not taken from a state the server can be in. -/
def tickOne (env : Env) (rand : String → ℚ) (acc : State × List (WS × Message))
    (ticker : String) : State × List (WS × Message) :=
  match acc.1.stockPrices.get ticker with
  | none => acc
  | some currentPrice =>
    let change := (rand ticker - 1 / 2) * (1 / 10) * currentPrice
    let newPrice := max 10 (currentPrice + change)
    let s1 : State := { acc.1 with stockPrices := acc.1.stockPrices.set ticker newPrice }
    (s1, acc.2 ++ broadcastPriceUpdate env s1 ticker newPrice)

/-- The interval callback: one price tick; `rand ticker` is the value `Math.random()` returns
in the round of `ticker`. -/
def tick (env : Env) (rand : String → ℚ) (s : State) : State × List (WS × Message) :=
  SUPPORTED_STOCKS.foldl (tickOne env rand) (s, [])

/-! ## Start-up and runs -/

/-- The function `loadUserData()` on a parsed document `data`: one fresh `Set` per entry. -/
def loadUserData (data : List (String × List String)) (s : State) : State :=
  data.foldl (fun st entry =>
    { st with
      heap := Function.update st.heap st.nextRef (JSSet.ofArray entry.2)
      nextRef := st.nextRef + 1
      users := st.users.set entry.1 ⟨entry.1, st.nextRef⟩ }) s

/-- The stores when the server starts to listen: prices drawn with `Math.random()` (`rand`),
users loaded from the data file (`data`, empty when there is no file), no client. -/
def init (rand : String → ℚ) (data : List (String × List String)) : State :=
  loadUserData data
    { heap := fun _ => JSSet.empty
      nextRef := 0
      users := JSMap.empty
      stockPrices := SUPPORTED_STOCKS.foldl
        (fun m ticker => m.set ticker (rand ticker * 1000 + 100)) JSMap.empty
      clients := JSMap.empty }

/-- A value of the saved document: the object `{ email, subscriptions }`. -/
structure UserData where
  email : String
  subscriptions : List String
deriving DecidableEq

/-- The object `data` that the timer of `saveUserData()` fills from `users` and hands to
`JSON.stringify`, as the list of its own properties. The assignment `data[email] = value`
defines the property `email`, except for the key `__proto__`: `data` is a plain object, so
that assignment runs the setter inherited from `Object.prototype`, which makes `value` the
prototype of `data` and defines no property, and `JSON.stringify` writes own properties only.
The list is in the order of `users`; in the written document the properties whose name is an
array index come first. -/
def saveUserData (s : State) : List (String × UserData) :=
  (s.users.entries.filter fun entry => decide (entry.1 ≠ "__proto__")).map fun entry =>
    (entry.1, ⟨entry.2.email, (s.heap entry.2.subscriptions).toArray⟩)

/-- What `loadUserData()` reads of a parsed document: `Object.entries(data)` with, for each
property, its name and `userData.subscriptions`. -/
def readDocument (doc : List (String × UserData)) : List (String × List String) :=
  doc.map fun entry => (entry.1, entry.2.subscriptions)

/-- What can happen to a running server. -/
inductive Event where
  | login (email : String)
  | subscribe (email ticker : String)
  | unsubscribe (email ticker : String)
  | register (ws : WS) (email : String)
  | close (ws : WS)
  | tick (rand : String → ℚ)

/-- The stores after an event and the messages sent while it was handled. -/
def step (env : Env) (s : State) : Event → State × List (WS × Message)
  | Event.login email => ((login s email).1, [])
  | Event.subscribe email ticker =>
    ((subscribe env s email ticker).1, (subscribe env s email ticker).2.1)
  | Event.unsubscribe email ticker =>
    ((unsubscribe env s email ticker).1, (unsubscribe env s email ticker).2.1)
  | Event.register ws email => register s ws email
  | Event.close ws => (close s ws, [])
  | Event.tick rand => tick env rand s

/-- The stores after a sequence of events, each with the environment it ran in, and all the
messages sent, in order. -/
def run (s : State) : List (Env × Event) → State × List (WS × Message)
  | [] => (s, [])
  | (env, e) :: rest =>
    ((run (step env s e).1 rest).1, (step env s e).2 ++ (run (step env s e).1 rest).2)

/-- A state the server can be in: reached from a start-up state by some sequence of events. -/
def Reachable (s : State) : Prop :=
  ∃ rand data trace, (run (init rand data) trace).1 = s

/-- Every entry of `clients` names a user of `users` and holds the reference to that user's
own `Set`. -/
def Consistent (s : State) : Prop :=
  ∀ ws clientData, s.clients.get ws = some clientData →
    ∃ user, s.users.get clientData.email = some user ∧
      user.subscriptions = clientData.subscriptions

/-- Every supported ticker has a price in `stockPrices`. -/
def PricesDefined (s : State) : Prop :=
  ∀ ticker, ticker ∈ SUPPORTED_STOCKS → ∃ price, s.stockPrices.get ticker = some price

/-- Every `Set` a user object refers to has been allocated: its reference lies below the next
free one. -/
def Allocated (s : State) : Prop :=
  ∀ key user, s.users.get key = some user → user.subscriptions < s.nextRef

/-- No price in `stockPrices` is below the floor of 10. -/
def AboveFloor (s : State) : Prop :=
  ∀ ticker price, s.stockPrices.get ticker = some price → 10 ≤ price

/-! ## The dispatch when `ws.send` may raise

The definitions above take every `ws.send` to return. The loop of `broadcastPriceUpdate` is
given once more with a send that may raise: no `try` encloses the call, so an error raised by
`ws.send` ends the `forEach` and leaves the function. -/

/-- The outcome of a loop of sends: the sends that returned, and the socket whose send raised,
if one did. -/
structure Dispatch where
  sent : List (WS × Message)
  raised : Option WS
deriving DecidableEq

/-- The `forEach` of `broadcastPriceUpdate(ticker, price)` over the entries of `clients`, where
`ws.send` raises on the sockets `raises` marks. -/
def broadcastLoop (raises : WS → Bool) (env : Env) (s : State) (ticker : String) (price : ℚ) :
    List (WS × ClientData) → Dispatch
  | [] => ⟨[], none⟩
  | entry :: rest =>
    if (s.heap entry.2.subscriptions).has ticker = true ∧ env.readyState entry.1 = OPEN then
      if raises entry.1 = true then ⟨[], some entry.1⟩
      else
        ⟨(entry.1, Message.price_update ticker price (env.clock entry.1)) ::
            (broadcastLoop raises env s ticker price rest).sent,
          (broadcastLoop raises env s ticker price rest).raised⟩
    else broadcastLoop raises env s ticker price rest

/-- The function `broadcastPriceUpdate(ticker, price)` with a send that may raise. -/
def broadcastPriceUpdateRaising (raises : WS → Bool) (env : Env) (s : State) (ticker : String)
    (price : ℚ) : Dispatch :=
  broadcastLoop raises env s ticker price s.clients.entries

/-- The rounds of the interval callback over `tickers` with a send that may raise: no `try`
encloses the call of `broadcastPriceUpdate` either, so an error ends the callback before the
rounds of the tickers that follow. -/
def tickLoop (raises : WS → Bool) (env : Env) (rand : String → ℚ) :
    State → List String → State × Dispatch
  | s, [] => (s, ⟨[], none⟩)
  | s, ticker :: rest =>
    match s.stockPrices.get ticker with
    | none => tickLoop raises env rand s rest
    | some currentPrice =>
      let change := (rand ticker - 1 / 2) * (1 / 10) * currentPrice
      let newPrice := max 10 (currentPrice + change)
      let s1 : State := { s with stockPrices := s.stockPrices.set ticker newPrice }
      match (broadcastPriceUpdateRaising raises env s1 ticker newPrice).raised with
      | some ws =>
        (s1, ⟨(broadcastPriceUpdateRaising raises env s1 ticker newPrice).sent, some ws⟩)
      | none =>
        ((tickLoop raises env rand s1 rest).1,
          ⟨(broadcastPriceUpdateRaising raises env s1 ticker newPrice).sent ++
              (tickLoop raises env rand s1 rest).2.sent,
            (tickLoop raises env rand s1 rest).2.raised⟩)

/-- The interval callback with a send that may raise. -/
def tickRaising (raises : WS → Bool) (env : Env) (rand : String → ℚ) (s : State) :
    State × Dispatch :=
  tickLoop raises env rand s SUPPORTED_STOCKS

/-! ## Replaying calls on one user -/

/-- A call of the control plane on a fixed user: subscribe to or unsubscribe from a ticker. -/
inductive Call where
  | subscribe (ticker : String)
  | unsubscribe (ticker : String)
deriving DecidableEq

/-- The ticker a call names. -/
def Call.ticker : Call → String
  | .subscribe t => t
  | .unsubscribe t => t

/-- The stores after a sequence of subscribe and unsubscribe requests of user `email`. -/
def replay (s : State) (email : String) : List (Env × Call) → State
  | [] => s
  | (env, Call.subscribe t) :: rest => replay (subscribe env s email t).1 email rest
  | (env, Call.unsubscribe t) :: rest => replay (unsubscribe env s email t).1 email rest

/-- The last call of a sequence that names `ticker`, if there is one. -/
def lastCall (calls : List (Env × Call)) (ticker : String) : Option Call :=
  ((calls.map Prod.snd).filter fun c => decide (c.ticker = ticker)).getLast?

/-! ## The browser client (`public/app.js`)

The stores of the page are objects keyed by ticker; `none` stands for a property that is
absent or `undefined`. What the functions do to the document (the cards, the alerts, the
chart) has no counterpart here; whether the card `stock-<ticker>` exists is read from
`displayed`. Tickers are taken to be ordinary property names. -/

/-- The client's stores `stockPrices`, `previousPrices`, `initialPrices` and `priceHistory`; a
sample of a history is a number or `undefined`. -/
structure Client where
  stockPrices : String → Option ℚ
  previousPrices : String → Option ℚ
  initialPrices : String → Option ℚ
  priceHistory : String → Option (List (Option ℚ))

/-- The stores when the page is loaded: four empty objects. -/
def Client.start : Client := ⟨fun _ => none, fun _ => none, fun _ => none, fun _ => none⟩

/-- The function `updateStockPrice(ticker, newPrice)`. -/
def updateStockPrice (displayed : String → Bool) (c : Client) (ticker : String) (newPrice : ℚ) :
    Client :=
  if displayed ticker = false then c
  else
    let oldPrice : ℚ :=
      match c.stockPrices ticker with
      | some price => if price = 0 then newPrice else price
      | none => newPrice
    let history : List (Option ℚ) :=
      match c.priceHistory ticker with
      | some samples => samples
      | none => []
    let pushed := history ++ [some newPrice]
    { c with
      previousPrices := Function.update c.previousPrices ticker (some oldPrice)
      stockPrices := Function.update c.stockPrices ticker (some newPrice)
      priceHistory := Function.update c.priceHistory ticker
        (some (if pushed.length > 60 then pushed.tail else pushed)) }

/-- The function `handleWebSocketMessage(data)`. -/
def handleWebSocketMessage (displayed : String → Bool) (c : Client) : Message → Client
  | Message.initial_prices prices _ =>
    { stockPrices := fun ticker => prices.lookup ticker
      previousPrices := fun ticker => prices.lookup ticker
      initialPrices := fun ticker => prices.lookup ticker
      priceHistory := fun ticker =>
        match prices.lookup ticker with
        | some price => some [some price]
        | none => c.priceHistory ticker }
  | Message.price_update ticker price _ => updateStockPrice displayed c ticker price
  | Message.subscription_added ticker price =>
    { stockPrices := Function.update c.stockPrices ticker price
      previousPrices := Function.update c.previousPrices ticker price
      initialPrices := Function.update c.initialPrices ticker price
      priceHistory := Function.update c.priceHistory ticker (some [price]) }
  | Message.subscription_removed ticker =>
    { c with
      stockPrices := Function.update c.stockPrices ticker none
      previousPrices := Function.update c.previousPrices ticker none
      initialPrices := Function.update c.initialPrices ticker none }

/-- The stores after a sequence of calls of `updateStockPrice` for one ticker, each with the
state of the document it ran in and the price it carried. -/
def applyUpdates (c : Client) (ticker : String) : List ((String → Bool) × ℚ) → Client
  | [] => c
  | (displayed, price) :: rest =>
    applyUpdates (updateStockPrice displayed c ticker price) ticker rest

/-! ## Sample stores -/

/-- An environment in which every socket is open. -/
def allOpen : Env := ⟨fun _ => OPEN, fun _ => "2024-01-01T00:00:00.000Z"⟩

/-- An environment in which socket `1` is closing and every other socket is open. -/
def oneClosing : Env :=
  ⟨fun ws => if ws = 1 then 2 else OPEN, fun _ => "2024-01-01T00:00:00.000Z"⟩

/-- A server started with one stored user; sockets `1` and `2` then register for that user, a
second user logs in and socket `3` registers for the second user. -/
def sampleState : State :=
  (run (init (fun _ => 0) [("a@x.com", ["GOOG", "TSLA"])])
    [(allOpen, Event.register 1 "a@x.com"), (allOpen, Event.register 2 "a@x.com"),
      (allOpen, Event.login "b@y.com"), (allOpen, Event.register 3 "b@y.com")]).1

/-- Two ticks around a subscribe and an unsubscribe request of the first user. -/
def sampleTrace : List (Env × Event) :=
  [(allOpen, Event.tick fun _ => 1), (allOpen, Event.subscribe "a@x.com" "NVDA"),
    (allOpen, Event.unsubscribe "a@x.com" "TSLA"), (allOpen, Event.tick fun _ => 0)]

/-- Four requests of the first user: the last call naming GOOG is a subscribe, the last one
naming TSLA an unsubscribe. -/
def sampleCalls : List (Env × Call) :=
  [(allOpen, Call.subscribe "NVDA"), (allOpen, Call.unsubscribe "GOOG"),
    (oneClosing, Call.subscribe "GOOG"), (allOpen, Call.unsubscribe "TSLA")]

/-- A server started from a data file that holds a user under the key `__proto__` and a second
user. -/
def protoState : State :=
  init (fun _ => 0) [("__proto__", ["GOOG"]), ("a@x.com", ["TSLA"])]

/-- A page that has received the first snapshot with GOOG at 100. -/
def sampleClient : Client :=
  handleWebSocketMessage (fun _ => true) Client.start
    (Message.initial_prices [("GOOG", 100)] ["GOOG"])

/-- Seventy price updates of a displayed ticker, with the prices 0, 1, ..., 69. -/
def sampleUpdates : List ((String → Bool) × ℚ) :=
  (List.range 70).map fun i => (fun _ => true, (i : ℚ))

/-! ## Facts about `Map` and `Set` -/

namespace JSMap

variable {K V : Type} [DecidableEq K]

theorem get_empty (k : K) : (empty : JSMap K V).get k = none := rfl

theorem find_setEntries_self (l : List (K × V)) (k : K) (v : V) :
    (setEntries l k v).find? (fun e => decide (e.1 = k)) = some (k, v) := by
  induction l with
  | nil => simp [setEntries]
  | cons e rest ih =>
    obtain ⟨k', v'⟩ := e
    by_cases h : k' = k
    · simp [setEntries, h]
    · simp [setEntries, h, List.find?_cons, ih]

theorem find_setEntries_ne (l : List (K × V)) (k : K) (v : V) (a : K) (ha : a ≠ k) :
    (setEntries l k v).find? (fun e => decide (e.1 = a)) =
      l.find? (fun e => decide (e.1 = a)) := by
  induction l with
  | nil => simp [setEntries, List.find?_cons, Ne.symm ha]
  | cons e rest ih =>
    obtain ⟨k', v'⟩ := e
    by_cases h : k' = k
    · subst h
      simp [setEntries, List.find?_cons, Ne.symm ha]
    · by_cases h2 : k' = a
      · subst h2
        simp [setEntries, h, List.find?_cons]
      · simp [setEntries, h, List.find?_cons, h2, ih]

theorem get_set_self (m : JSMap K V) (k : K) (v : V) : (m.set k v).get k = some v := by
  simp [get, set, find_setEntries_self]

theorem get_set_ne (m : JSMap K V) (k : K) (v : V) (a : K) (ha : a ≠ k) :
    (m.set k v).get a = m.get a := by
  simp [get, set, find_setEntries_ne _ _ _ _ ha]

theorem get_delete_self (m : JSMap K V) (k : K) : (m.delete k).get k = none := by
  simp only [get, delete, Option.map_eq_none', List.find?_eq_none, List.mem_filter]
  intro e he
  simpa using he.2

theorem get_delete_ne (m : JSMap K V) (k a : K) (ha : a ≠ k) :
    (m.delete k).get a = m.get a := by
  obtain ⟨l, hl⟩ := m
  simp only [get, delete]
  congr 1
  clear hl
  induction l with
  | nil => rfl
  | cons e rest ih =>
    obtain ⟨k', v'⟩ := e
    by_cases h : k' = k
    · subst h
      simp [List.filter_cons, List.find?_cons, Ne.symm ha, ih]
    · by_cases h2 : k' = a
      · subst h2
        simp [List.filter_cons, h, List.find?_cons]
      · simp [List.filter_cons, h, List.find?_cons, h2, ih]

end JSMap

/-! ## Facts about the fan-out helpers -/

theorem sentTo_nil (ws : WS) : sentTo [] ws = [] := rfl

theorem sentTo_append (a b : List (WS × Message)) (ws : WS) :
    sentTo (a ++ b) ws = sentTo a ws ++ sentTo b ws := by
  simp [sentTo]

theorem sentTo_cons_self (ws : WS) (m : Message) (rest : List (WS × Message)) :
    sentTo ((ws, m) :: rest) ws = m :: sentTo rest ws := by
  simp [sentTo]

theorem sentTo_cons_ne (ws a : WS) (m : Message) (rest : List (WS × Message)) (h : a ≠ ws) :
    sentTo ((a, m) :: rest) ws = sentTo rest ws := by
  simp [sentTo, List.filter_cons, h]

/-- A loop of guarded sends over the entries of a map sends nothing to a socket that is not a
key of the map. -/
theorem sentTo_guarded_of_not_mem (l : List (WS × ClientData)) (p : WS × ClientData → Prop)
    [DecidablePred p] (msg : WS × ClientData → Message) (ws : WS)
    (h : ws ∉ l.map Prod.fst) :
    sentTo (l.filterMap fun e => if p e then some (e.1, msg e) else none) ws = [] := by
  induction l with
  | nil => rfl
  | cons e rest ih =>
    rw [List.map_cons, List.mem_cons, not_or] at h
    by_cases hp : p e
    · simp only [List.filterMap_cons, if_pos hp]
      rw [sentTo_cons_ne _ _ _ _ (Ne.symm h.1)]
      exact ih h.2
    · simp only [List.filterMap_cons, if_neg hp]
      exact ih h.2

/-- A loop of guarded sends over the entries of a map: what goes to one socket is decided by
the entry of that socket alone. -/
theorem sentTo_guarded (l : List (WS × ClientData)) (hl : (l.map Prod.fst).Nodup)
    (p : WS × ClientData → Prop) [DecidablePred p] (msg : WS × ClientData → Message)
    (ws : WS) :
    sentTo (l.filterMap fun e => if p e then some (e.1, msg e) else none) ws =
      match l.find? (fun e => decide (e.1 = ws)) with
      | some e => if p e then [msg e] else []
      | none => [] := by
  induction l with
  | nil => rfl
  | cons e rest ih =>
    rw [List.map_cons, List.nodup_cons] at hl
    by_cases hk : e.1 = ws
    · have hfind : (e :: rest).find? (fun e => decide (e.1 = ws)) = some e := by
        simp [List.find?_cons, hk]
      have hrest := sentTo_guarded_of_not_mem rest p msg ws (hk ▸ hl.1)
      rw [hfind]
      by_cases hp : p e
      · simp only [List.filterMap_cons, if_pos hp]
        have he : (e.1, msg e) = (ws, msg e) := by rw [hk]
        rw [he, sentTo_cons_self, hrest]
      · simp only [List.filterMap_cons, if_neg hp]
        exact hrest
    · have hfind : (e :: rest).find? (fun e => decide (e.1 = ws)) =
          rest.find? (fun e => decide (e.1 = ws)) := by
        simp [List.find?_cons, hk]
      rw [hfind, ← ih hl.2]
      by_cases hp : p e
      · simp only [List.filterMap_cons, if_pos hp]
        rw [sentTo_cons_ne _ _ _ _ hk]
      · simp only [List.filterMap_cons, if_neg hp]

theorem sentTo_notifyUserClients (env : Env) (clients : JSMap WS ClientData) (email : String)
    (message : Message) (ws : WS) :
    sentTo (notifyUserClients env clients email message) ws =
      match clients.get ws with
      | some clientData =>
        if clientData.email = email ∧ env.readyState ws = OPEN then [message] else []
      | none => [] := by
  unfold notifyUserClients
  rw [sentTo_guarded clients.entries clients.nodup
    (fun e => e.2.email = email ∧ env.readyState e.1 = OPEN) (fun _ => message) ws]
  unfold JSMap.get
  cases hf : clients.entries.find? (fun e => decide (e.1 = ws)) with
  | none => rfl
  | some e =>
    have hk : e.1 = ws := by simpa using List.find?_some hf
    simp only [Option.map_some', hk]

theorem sentTo_broadcastPriceUpdate (env : Env) (s : State) (ticker : String) (price : ℚ)
    (ws : WS) :
    sentTo (broadcastPriceUpdate env s ticker price) ws =
      match s.clients.get ws with
      | some clientData =>
        if (s.heap clientData.subscriptions).has ticker = true ∧ env.readyState ws = OPEN then
          [Message.price_update ticker price (env.clock ws)]
        else []
      | none => [] := by
  unfold broadcastPriceUpdate
  rw [sentTo_guarded s.clients.entries s.clients.nodup
    (fun e => (s.heap e.2.subscriptions).has ticker = true ∧ env.readyState e.1 = OPEN)
    (fun e => Message.price_update ticker price (env.clock e.1)) ws]
  unfold JSMap.get
  cases hf : s.clients.entries.find? (fun e => decide (e.1 = ws)) with
  | none => rfl
  | some e =>
    have hk : e.1 = ws := by simpa using List.find?_some hf
    simp only [Option.map_some', hk]

theorem length_guarded (l : List (WS × ClientData)) (p : WS × ClientData → Prop)
    [DecidablePred p] (msg : WS × ClientData → WS × Message) :
    (l.filterMap fun e => if p e then some (msg e) else none).length =
      (l.filter fun e => decide (p e)).length := by
  induction l with
  | nil => rfl
  | cons e rest ih =>
    by_cases hp : p e
    · simp only [List.filterMap_cons, if_pos hp]
      rw [List.filter_cons_of_pos (by simpa using hp), List.length_cons, List.length_cons, ih]
    · simp only [List.filterMap_cons, if_neg hp]
      rw [List.filter_cons_of_neg (by simpa using hp), ih]

/-! ## What each handler leaves alone -/

theorem login_clients (s : State) (email : String) : (login s email).1.clients = s.clients := by
  unfold login
  split_ifs <;> simp only []
  all_goals split <;> rfl

theorem login_users_get (s : State) (email k : String) (u : User)
    (h : s.users.get k = some u) : (login s email).1.users.get k = some u := by
  have key : ∀ s1 : State, s1.users.get k = some u →
      (match s1.users.get email with
        | some user =>
          (s1, Response.success (some user.email) (s1.heap user.subscriptions).toArray)
        | none => (s1, Response.failure 500 "TypeError" none)).1.users.get k = some u := by
    intro s1 h1
    split <;> exact h1
  unfold login
  split_ifs with h1 h2
  · exact h
  · exact key s h
  · apply key
    have hne : k ≠ email := by
      intro hke
      rw [hke] at h
      simp [JSMap.has, h] at h2
    simp only []
    rw [JSMap.get_set_ne _ _ _ _ hne]
    exact h

theorem subscribe_of_missing (env : Env) (s : State) (email ticker : String)
    (h : email = "" ∨ ticker = "") :
    subscribe env s email ticker =
      (s, [], Response.failure 400 "Email and ticker are required" none) := by
  unfold subscribe
  rw [if_pos h]

theorem subscribe_of_unsupported (env : Env) (s : State) (email ticker : String)
    (h1 : ¬(email = "" ∨ ticker = "")) (h2 : ticker ∉ SUPPORTED_STOCKS) :
    subscribe env s email ticker =
      (s, [], Response.failure 400 "Stock not supported" (some SUPPORTED_STOCKS)) := by
  unfold subscribe
  rw [if_neg h1, if_pos h2]

theorem subscribe_of_unknown (env : Env) (s : State) (email ticker : String)
    (h1 : ¬(email = "" ∨ ticker = "")) (h2 : ticker ∈ SUPPORTED_STOCKS)
    (h3 : s.users.get email = none) :
    subscribe env s email ticker =
      (s, [], Response.failure 404 "User not found. Please login first." none) := by
  unfold subscribe
  rw [if_neg h1, if_neg (not_not.mpr h2)]
  simp only [h3]

theorem subscribe_of_known (env : Env) (s : State) (email ticker : String) (user : User)
    (h1 : ¬(email = "" ∨ ticker = "")) (h2 : ticker ∈ SUPPORTED_STOCKS)
    (h3 : s.users.get email = some user) :
    subscribe env s email ticker =
      ({ s with
          heap := Function.update s.heap user.subscriptions
            ((s.heap user.subscriptions).add ticker) },
        notifyUserClients env s.clients email
          (Message.subscription_added ticker (s.stockPrices.get ticker)),
        Response.success none ((s.heap user.subscriptions).add ticker).toArray) := by
  unfold subscribe
  rw [if_neg h1, if_neg (not_not.mpr h2)]
  simp only [h3, Function.update_same]

theorem unsubscribe_of_unknown (env : Env) (s : State) (email ticker : String)
    (h3 : s.users.get email = none) :
    unsubscribe env s email ticker = (s, [], Response.failure 404 "User not found" none) := by
  unfold unsubscribe
  simp only [h3]

theorem unsubscribe_of_known (env : Env) (s : State) (email ticker : String) (user : User)
    (h3 : s.users.get email = some user) :
    unsubscribe env s email ticker =
      ({ s with
          heap := Function.update s.heap user.subscriptions
            ((s.heap user.subscriptions).delete ticker) },
        notifyUserClients env s.clients email (Message.subscription_removed ticker),
        Response.success none ((s.heap user.subscriptions).delete ticker).toArray) := by
  unfold unsubscribe
  simp only [h3, Function.update_same]

theorem subscribe_frame (env : Env) (s : State) (email ticker : String) :
    (subscribe env s email ticker).1.clients = s.clients ∧
      (subscribe env s email ticker).1.users = s.users ∧
      (subscribe env s email ticker).1.stockPrices = s.stockPrices := by
  by_cases h1 : email = "" ∨ ticker = ""
  · rw [subscribe_of_missing env s email ticker h1]
    exact ⟨rfl, rfl, rfl⟩
  · by_cases h2 : ticker ∈ SUPPORTED_STOCKS
    · cases h3 : s.users.get email with
      | none =>
        rw [subscribe_of_unknown env s email ticker h1 h2 h3]
        exact ⟨rfl, rfl, rfl⟩
      | some user =>
        rw [subscribe_of_known env s email ticker user h1 h2 h3]
        exact ⟨rfl, rfl, rfl⟩
    · rw [subscribe_of_unsupported env s email ticker h1 h2]
      exact ⟨rfl, rfl, rfl⟩

theorem unsubscribe_frame (env : Env) (s : State) (email ticker : String) :
    (unsubscribe env s email ticker).1.clients = s.clients ∧
      (unsubscribe env s email ticker).1.users = s.users ∧
      (unsubscribe env s email ticker).1.stockPrices = s.stockPrices := by
  cases h3 : s.users.get email with
  | none =>
    rw [unsubscribe_of_unknown env s email ticker h3]
    exact ⟨rfl, rfl, rfl⟩
  | some user =>
    rw [unsubscribe_of_known env s email ticker user h3]
    exact ⟨rfl, rfl, rfl⟩

/-- The sends of a subscribe request: those of `notifyUserClients` when it succeeds, none when
it fails. -/
theorem subscribe_sent (env : Env) (s : State) (email ticker : String) :
    ((subscribe env s email ticker).2.2.status = 200 ∧
        (subscribe env s email ticker).2.1 = notifyUserClients env s.clients email
          (Message.subscription_added ticker (s.stockPrices.get ticker))) ∨
      ((subscribe env s email ticker).2.2.status ≠ 200 ∧
        (subscribe env s email ticker).2.1 = []) := by
  by_cases h1 : email = "" ∨ ticker = ""
  · rw [subscribe_of_missing env s email ticker h1]
    exact Or.inr ⟨by simp [Response.status], rfl⟩
  · by_cases h2 : ticker ∈ SUPPORTED_STOCKS
    · cases h3 : s.users.get email with
      | none =>
        rw [subscribe_of_unknown env s email ticker h1 h2 h3]
        exact Or.inr ⟨by simp [Response.status], rfl⟩
      | some user =>
        rw [subscribe_of_known env s email ticker user h1 h2 h3]
        exact Or.inl ⟨rfl, rfl⟩
    · rw [subscribe_of_unsupported env s email ticker h1 h2]
      exact Or.inr ⟨by simp [Response.status], rfl⟩

/-- The sends of an unsubscribe request: those of `notifyUserClients` when it succeeds, none
when it fails. -/
theorem unsubscribe_sent (env : Env) (s : State) (email ticker : String) :
    ((unsubscribe env s email ticker).2.2.status = 200 ∧
        (unsubscribe env s email ticker).2.1 = notifyUserClients env s.clients email
          (Message.subscription_removed ticker)) ∨
      ((unsubscribe env s email ticker).2.2.status ≠ 200 ∧
        (unsubscribe env s email ticker).2.1 = []) := by
  cases h3 : s.users.get email with
  | none =>
    rw [unsubscribe_of_unknown env s email ticker h3]
    exact Or.inr ⟨by simp [Response.status], rfl⟩
  | some user =>
    rw [unsubscribe_of_known env s email ticker user h3]
    exact Or.inl ⟨rfl, rfl⟩

theorem tickOne_frame (env : Env) (rand : String → ℚ) (acc : State × List (WS × Message))
    (ticker : String) :
    (tickOne env rand acc ticker).1.clients = acc.1.clients ∧
      (tickOne env rand acc ticker).1.users = acc.1.users ∧
      (tickOne env rand acc ticker).1.heap = acc.1.heap := by
  unfold tickOne
  cases acc.1.stockPrices.get ticker with
  | none => exact ⟨rfl, rfl, rfl⟩
  | some currentPrice => exact ⟨rfl, rfl, rfl⟩

theorem foldl_tickOne_frame (env : Env) (rand : String → ℚ) (tickers : List String)
    (acc : State × List (WS × Message)) :
    (tickers.foldl (tickOne env rand) acc).1.clients = acc.1.clients ∧
      (tickers.foldl (tickOne env rand) acc).1.users = acc.1.users ∧
      (tickers.foldl (tickOne env rand) acc).1.heap = acc.1.heap := by
  induction tickers generalizing acc with
  | nil => exact ⟨rfl, rfl, rfl⟩
  | cons t rest ih =>
    rw [List.foldl_cons]
    obtain ⟨h1, h2, h3⟩ := ih (tickOne env rand acc t)
    obtain ⟨k1, k2, k3⟩ := tickOne_frame env rand acc t
    exact ⟨h1.trans k1, h2.trans k2, h3.trans k3⟩

theorem tick_frame (env : Env) (rand : String → ℚ) (s : State) :
    (tick env rand s).1.clients = s.clients ∧ (tick env rand s).1.users = s.users ∧
      (tick env rand s).1.heap = s.heap :=
  foldl_tickOne_frame env rand SUPPORTED_STOCKS (s, [])

theorem tickOne_sentTo (env : Env) (rand : String → ℚ) (acc : State × List (WS × Message))
    (ticker : String) (ws : WS) (h : acc.1.clients.get ws = none) :
    sentTo (tickOne env rand acc ticker).2 ws = sentTo acc.2 ws := by
  unfold tickOne
  cases acc.1.stockPrices.get ticker with
  | none => rfl
  | some currentPrice =>
    simp only [sentTo_append, sentTo_broadcastPriceUpdate, h, List.append_nil]

theorem foldl_tickOne_sentTo (env : Env) (rand : String → ℚ) (tickers : List String)
    (acc : State × List (WS × Message)) (ws : WS) (h : acc.1.clients.get ws = none) :
    sentTo (tickers.foldl (tickOne env rand) acc).2 ws = sentTo acc.2 ws := by
  induction tickers generalizing acc with
  | nil => rfl
  | cons t rest ih =>
    rw [List.foldl_cons, ih (tickOne env rand acc t)
      (by rw [(tickOne_frame env rand acc t).1]; exact h)]
    exact tickOne_sentTo env rand acc t ws h

/-- A price tick sends nothing to a socket that has no entry in `clients`. -/
theorem tick_sentTo_of_unbound (env : Env) (rand : String → ℚ) (s : State) (ws : WS)
    (h : s.clients.get ws = none) : sentTo (tick env rand s).2 ws = [] :=
  foldl_tickOne_sentTo env rand SUPPORTED_STOCKS (s, []) ws h

theorem register_of_unknown (s : State) (ws : WS) (email : String)
    (h : s.users.get email = none) : register s ws email = (s, []) := by
  unfold register
  simp only [h]

theorem register_of_known (s : State) (ws : WS) (email : String) (user : User)
    (h : s.users.get email = some user) :
    register s ws email =
      ({ s with clients := s.clients.set ws ⟨email, user.subscriptions⟩ },
        [(ws, Message.initial_prices
          ((s.heap user.subscriptions).elems.filterMap fun ticker =>
            (s.stockPrices.get ticker).map fun price => (ticker, price))
          (s.heap user.subscriptions).toArray)]) := by
  unfold register
  simp only [h]

theorem register_frame (s : State) (ws : WS) (email : String) :
    (register s ws email).1.users = s.users ∧
      (register s ws email).1.stockPrices = s.stockPrices ∧
      (register s ws email).1.heap = s.heap := by
  cases h : s.users.get email with
  | none =>
    rw [register_of_unknown s ws email h]
    exact ⟨rfl, rfl, rfl⟩
  | some user =>
    rw [register_of_known s ws email user h]
    exact ⟨rfl, rfl, rfl⟩

/-- A registration on socket `a` leaves the entry of any other socket as it is and sends
nothing to it. -/
theorem register_other (s : State) (a ws : WS) (email : String) (h : ws ≠ a) :
    (register s a email).1.clients.get ws = s.clients.get ws ∧
      sentTo (register s a email).2 ws = [] := by
  cases hu : s.users.get email with
  | none =>
    rw [register_of_unknown s a email hu]
    exact ⟨rfl, rfl⟩
  | some user =>
    rw [register_of_known s a email user hu]
    exact ⟨JSMap.get_set_ne _ _ _ _ h, sentTo_cons_ne _ _ _ _ (Ne.symm h)⟩

/-! ## Steps and runs -/

/-- A socket without an entry in `clients` has none after an event that is not a registration
on it, and the event sends nothing to it. -/
theorem step_unbound (env : Env) (s : State) (e : Event) (ws : WS)
    (h : s.clients.get ws = none) (he : ∀ email, e ≠ Event.register ws email) :
    (step env s e).1.clients.get ws = none ∧ sentTo (step env s e).2 ws = [] := by
  cases e with
  | login email =>
    exact ⟨by simp only [step, login_clients]; exact h, rfl⟩
  | subscribe email ticker =>
    refine ⟨by simp only [step, (subscribe_frame env s email ticker).1]; exact h, ?_⟩
    rcases subscribe_sent env s email ticker with h1 | h1
    · simp only [step, h1.2, sentTo_notifyUserClients, h]
    · simp only [step, h1.2, sentTo_nil]
  | unsubscribe email ticker =>
    refine ⟨by simp only [step, (unsubscribe_frame env s email ticker).1]; exact h, ?_⟩
    rcases unsubscribe_sent env s email ticker with h1 | h1
    · simp only [step, h1.2, sentTo_notifyUserClients, h]
    · simp only [step, h1.2, sentTo_nil]
  | register a email =>
    have hne : ws ≠ a := fun hc => he email (by rw [hc])
    obtain ⟨h1, h2⟩ := register_other s a ws email hne
    exact ⟨by simp only [step]; rw [h1]; exact h, by simp only [step]; exact h2⟩
  | close a =>
    refine ⟨?_, rfl⟩
    simp only [step, close]
    by_cases hc : ws = a
    · rw [hc]; exact JSMap.get_delete_self _ _
    · rw [JSMap.get_delete_ne _ _ _ hc]; exact h
  | tick rand =>
    exact ⟨by simp only [step, (tick_frame env rand s).1]; exact h,
      by simp only [step]; exact tick_sentTo_of_unbound env rand s ws h⟩

/-- No run without a registration on `ws` sends to `ws` when it starts without an entry of
`ws` in `clients`. -/
theorem run_unbound (trace : List (Env × Event)) (s : State) (ws : WS)
    (h : s.clients.get ws = none)
    (ht : ∀ x ∈ trace, ∀ email, x.2 ≠ Event.register ws email) :
    sentTo (run s trace).2 ws = [] := by
  induction trace generalizing s with
  | nil => rfl
  | cons x rest ih =>
    obtain ⟨env, e⟩ := x
    obtain ⟨h1, h2⟩ := step_unbound env s e ws h (ht (env, e) (List.mem_cons_self _ _))
    simp only [run, sentTo_append, h2, List.nil_append]
    exact ih _ h1 (fun y hy => ht y (List.mem_cons_of_mem _ hy))

theorem step_consistent (env : Env) (s : State) (e : Event) (h : Consistent s) :
    Consistent (step env s e).1 := by
  intro ws clientData hget
  cases e with
  | login email =>
    simp only [step, login_clients] at hget
    obtain ⟨u, hu, href⟩ := h ws clientData hget
    exact ⟨u, login_users_get s email _ u hu, href⟩
  | subscribe email ticker =>
    simp only [step, (subscribe_frame env s email ticker).1] at hget
    simp only [step, (subscribe_frame env s email ticker).2.1]
    exact h ws clientData hget
  | unsubscribe email ticker =>
    simp only [step, (unsubscribe_frame env s email ticker).1] at hget
    simp only [step, (unsubscribe_frame env s email ticker).2.1]
    exact h ws clientData hget
  | register a email =>
    simp only [step, (register_frame s a email).1]
    simp only [step] at hget
    by_cases hc : ws = a
    · cases hu : s.users.get email with
      | none =>
        rw [register_of_unknown s a email hu] at hget
        exact h ws clientData hget
      | some user =>
        rw [register_of_known s a email user hu, hc] at hget
        simp only [JSMap.get_set_self, Option.some.injEq] at hget
        rw [← hget]
        exact ⟨user, hu, rfl⟩
    · rw [(register_other s a ws email hc).1] at hget
      exact h ws clientData hget
  | close a =>
    simp only [step, close] at hget ⊢
    by_cases hc : ws = a
    · rw [hc, JSMap.get_delete_self] at hget
      cases hget
    · rw [JSMap.get_delete_ne _ _ _ hc] at hget
      exact h ws clientData hget
  | tick rand =>
    simp only [step, (tick_frame env rand s).1] at hget
    simp only [step, (tick_frame env rand s).2.1]
    exact h ws clientData hget

theorem run_consistent (trace : List (Env × Event)) (s : State) (h : Consistent s) :
    Consistent (run s trace).1 := by
  induction trace generalizing s with
  | nil => exact h
  | cons x rest ih =>
    obtain ⟨env, e⟩ := x
    simp only [run]
    exact ih _ (step_consistent env s e h)

theorem loadUserData_frame (data : List (String × List String)) (s : State) :
    (loadUserData data s).clients = s.clients ∧
      (loadUserData data s).stockPrices = s.stockPrices := by
  unfold loadUserData
  induction data generalizing s with
  | nil => exact ⟨rfl, rfl⟩
  | cons entry rest ih =>
    rw [List.foldl_cons]
    obtain ⟨h1, h2⟩ := ih
      { s with
        heap := Function.update s.heap s.nextRef (JSSet.ofArray entry.2)
        nextRef := s.nextRef + 1
        users := s.users.set entry.1 ⟨entry.1, s.nextRef⟩ }
    exact ⟨h1, h2⟩

theorem init_consistent (rand : String → ℚ) (data : List (String × List String)) :
    Consistent (init rand data) := by
  intro ws clientData hget
  unfold init at hget
  rw [(loadUserData_frame data _).1] at hget
  simp [JSMap.get_empty] at hget

theorem reachable_consistent (s : State) (h : Reachable s) : Consistent s := by
  obtain ⟨rand, data, trace, rfl⟩ := h
  exact run_consistent trace _ (init_consistent rand data)

theorem login_stockPrices (s : State) (email : String) :
    (login s email).1.stockPrices = s.stockPrices := by
  unfold login
  split_ifs <;> simp only []
  all_goals split <;> rfl

theorem set_preserves_defined (m : JSMap String ℚ) (k : String) (v : ℚ) (a : String)
    (h : ∃ price, m.get a = some price) : ∃ price, (m.set k v).get a = some price := by
  by_cases hc : a = k
  · exact ⟨v, by rw [hc, JSMap.get_set_self]⟩
  · rw [JSMap.get_set_ne _ _ _ _ hc]
    exact h

theorem foldl_tickOne_prices (env : Env) (rand : String → ℚ) (tickers : List String)
    (acc : State × List (WS × Message)) (a : String)
    (h : ∃ price, acc.1.stockPrices.get a = some price) :
    ∃ price, (tickers.foldl (tickOne env rand) acc).1.stockPrices.get a = some price := by
  induction tickers generalizing acc with
  | nil => exact h
  | cons t rest ih =>
    rw [List.foldl_cons]
    apply ih
    unfold tickOne
    cases acc.1.stockPrices.get t with
    | none => exact h
    | some currentPrice => exact set_preserves_defined _ _ _ _ h

theorem step_pricesDefined (env : Env) (s : State) (e : Event) (h : PricesDefined s) :
    PricesDefined (step env s e).1 := by
  intro ticker ht
  cases e with
  | login email => simp only [step, login_stockPrices]; exact h ticker ht
  | subscribe email t =>
    simp only [step, (subscribe_frame env s email t).2.2]; exact h ticker ht
  | unsubscribe email t =>
    simp only [step, (unsubscribe_frame env s email t).2.2]; exact h ticker ht
  | register a email => simp only [step, (register_frame s a email).2.1]; exact h ticker ht
  | close a => exact h ticker ht
  | tick rand => exact foldl_tickOne_prices env rand SUPPORTED_STOCKS (s, []) ticker (h ticker ht)

theorem run_pricesDefined (trace : List (Env × Event)) (s : State) (h : PricesDefined s) :
    PricesDefined (run s trace).1 := by
  induction trace generalizing s with
  | nil => exact h
  | cons x rest ih =>
    obtain ⟨env, e⟩ := x
    simp only [run]
    exact ih _ (step_pricesDefined env s e h)

theorem foldl_set_defined (f : String → ℚ) (tickers : List String) (m : JSMap String ℚ)
    (a : String) (h : a ∈ tickers ∨ ∃ price, m.get a = some price) :
    ∃ price, (tickers.foldl (fun m ticker => m.set ticker (f ticker)) m).get a =
      some price := by
  induction tickers generalizing m with
  | nil =>
    rcases h with h | h
    · cases h
    · exact h
  | cons t rest ih =>
    rw [List.foldl_cons]
    apply ih
    rcases h with h | h
    · rcases List.mem_cons.mp h with h1 | h1
      · exact Or.inr ⟨f t, by rw [h1, JSMap.get_set_self]⟩
      · exact Or.inl h1
    · exact Or.inr (set_preserves_defined _ _ _ _ h)

theorem init_pricesDefined (rand : String → ℚ) (data : List (String × List String)) :
    PricesDefined (init rand data) := by
  intro ticker ht
  unfold init
  rw [(loadUserData_frame data _).2]
  exact foldl_set_defined (fun t => rand t * 1000 + 100) SUPPORTED_STOCKS JSMap.empty ticker
    (Or.inl ht)

theorem reachable_pricesDefined (s : State) (h : Reachable s) : PricesDefined s := by
  obtain ⟨rand, data, trace, rfl⟩ := h
  exact run_pricesDefined trace _ (init_pricesDefined rand data)

theorem sampleState_reachable : Reachable sampleState :=
  ⟨fun _ => 0, [("a@x.com", ["GOOG", "TSLA"])], _, rfl⟩

/-! ## Facts about `Set` -/

theorem JSSet.has_add_self (s : JSSet) (t : String) : (s.add t).has t = true := by
  unfold JSSet.add JSSet.has
  by_cases h : t ∈ s.elems
  · simp [h]
  · simp [h]

theorem JSSet.has_delete_self (s : JSSet) (t : String) : (s.delete t).has t = false := by
  unfold JSSet.delete JSSet.has
  simp only [decide_eq_false_iff_not]
  exact fun h => (List.Nodup.mem_erase_iff s.nodup).mp h |>.1 rfl

/-! ## The broadcast dispatcher -/

/-- C1: for every state of the stores, every ticker and every price,
`broadcastPriceUpdate(ticker, price)` sends to a socket exactly one `price_update` message
with that ticker and that price when the socket has an entry in `clients` whose subscription
set holds the ticker and the socket is open, and sends nothing to it otherwise (no entry, not
open, or a set without the ticker). -/
theorem broadcastPriceUpdate_sends_exactly (env : Env) (s : State) (ticker : String) (price : ℚ)
    (ws : WS) :
    sentTo (broadcastPriceUpdate env s ticker price) ws =
      match s.clients.get ws with
      | some clientData =>
        if (s.heap clientData.subscriptions).has ticker = true ∧ env.readyState ws = OPEN then
          [Message.price_update ticker price (env.clock ws)]
        else []
      | none => [] :=
  sentTo_broadcastPriceUpdate env s ticker price ws

/-! ## The connection directory -/

/-- C2: in every state reached from start-up by logins, subscribe and unsubscribe requests,
registrations, closes and price ticks, every entry of `clients` names a user of `users` and
holds the reference to that user's `Set`, so that its view is the user's current subscription
set; a subscribe or unsubscribe request that succeeds for that user is visible in the view of
the entry in the state the request returns in. -/
theorem directory_view_is_registry_set (s : State) (hs : Reachable s) (ws : WS)
    (clientData : ClientData) (hb : s.clients.get ws = some clientData) :
    (∃ user, s.users.get clientData.email = some user ∧
        user.subscriptions = clientData.subscriptions ∧
        s.heap clientData.subscriptions = s.heap user.subscriptions) ∧
      (∀ env ticker, (subscribe env s clientData.email ticker).2.2.status = 200 →
        (subscribe env s clientData.email ticker).1.clients.get ws = some clientData ∧
        ((subscribe env s clientData.email ticker).1.heap clientData.subscriptions).has ticker
          = true) ∧
      (∀ env ticker, (unsubscribe env s clientData.email ticker).2.2.status = 200 →
        (unsubscribe env s clientData.email ticker).1.clients.get ws = some clientData ∧
        ((unsubscribe env s clientData.email ticker).1.heap clientData.subscriptions).has ticker
          = false) := by
  obtain ⟨user, hu, href⟩ := reachable_consistent s hs ws clientData hb
  refine ⟨⟨user, hu, href, by rw [href]⟩, ?_, ?_⟩
  · intro env ticker hok
    refine ⟨by rw [(subscribe_frame env s _ ticker).1]; exact hb, ?_⟩
    by_cases h1 : clientData.email = "" ∨ ticker = ""
    · rw [subscribe_of_missing env s _ ticker h1] at hok
      simp [Response.status] at hok
    · by_cases h2 : ticker ∈ SUPPORTED_STOCKS
      · rw [subscribe_of_known env s _ ticker user h1 h2 hu]
        rw [← href]
        simp only [Function.update_same]
        exact JSSet.has_add_self _ _
      · rw [subscribe_of_unsupported env s _ ticker h1 h2] at hok
        simp [Response.status] at hok
  · intro env ticker _
    refine ⟨by rw [(unsubscribe_frame env s _ ticker).1]; exact hb, ?_⟩
    rw [unsubscribe_of_known env s _ ticker user hu]
    rw [← href]
    simp only [Function.update_same]
    exact JSSet.has_delete_self _ _

/-- C2, at the sample stores: socket `1` is bound to the first user. -/
theorem directory_view_is_registry_set_witness :
    sampleState.clients.get 1 = some ⟨"a@x.com", 0⟩ ∧
      ∃ user, sampleState.users.get "a@x.com" = some user ∧ user.subscriptions = 0 ∧
        sampleState.heap 0 = sampleState.heap user.subscriptions :=
  ⟨by decide,
    (directory_view_is_registry_set sampleState sampleState_reachable 1 ⟨"a@x.com", 0⟩
      (by decide)).1⟩

/-- C3: after the close of a socket, a run of any length without a new registration on that
socket (ticks, subscribe and unsubscribe requests, logins, events of other sockets) sends it
no message: the close removes its entry from `clients`, and neither `broadcastPriceUpdate` nor
`notifyUserClients` sends to a socket without an entry. -/
theorem no_send_after_close (s : State) (ws : WS) (trace : List (Env × Event))
    (ht : ∀ x ∈ trace, ∀ email, x.2 ≠ Event.register ws email) :
    (close s ws).clients.get ws = none ∧
      sentTo (run (close s ws) trace).2 ws = [] ∧
      (∀ (env : Env) (s1 : State) (ticker : String) (price : ℚ), s1.clients.get ws = none →
        sentTo (broadcastPriceUpdate env s1 ticker price) ws = []) ∧
      (∀ (env : Env) (s1 : State) (email : String) (message : Message),
        s1.clients.get ws = none →
        sentTo (notifyUserClients env s1.clients email message) ws = []) := by
  have hclosed : (close s ws).clients.get ws = none := JSMap.get_delete_self _ _
  refine ⟨hclosed, run_unbound trace _ ws hclosed ht, ?_, ?_⟩
  · intro env s1 ticker price h1
    rw [sentTo_broadcastPriceUpdate, h1]
  · intro env s1 email message h1
    rw [sentTo_notifyUserClients, h1]

/-- C3, at the sample stores: socket `1` closes, two ticks and two requests of its user
follow; socket `1` gets nothing although socket `2` of the same user does. -/
theorem no_send_after_close_witness :
    (∀ x ∈ sampleTrace, ∀ email, x.2 ≠ Event.register 1 email) ∧
      sentTo (run (close sampleState 1) sampleTrace).2 1 = [] ∧
      (sentTo (run (close sampleState 1) sampleTrace).2 2).length = 6 := by
  have ht : ∀ x ∈ sampleTrace, ∀ email, x.2 ≠ Event.register 1 email := by
    intro x hx email h
    simp only [sampleTrace, List.mem_cons, List.mem_singleton, List.not_mem_nil, or_false] at hx
    rcases hx with rfl | rfl | rfl | rfl <;> cases h
  exact ⟨ht, (no_send_after_close sampleState 1 sampleTrace ht).2.1, by decide⟩

/-- C4: when `M` open sockets are bound to a user, a subscribe request of that user that
succeeds sends `M` messages: to each of these sockets exactly one `subscription_added` with
the ticker and its current price, and nothing to a socket bound to another user or to none;
an unsubscribe request that succeeds does the same with `subscription_removed`, which carries
the ticker only. -/
theorem subscription_change_reaches_every_socket (env : Env) (s : State)
    (email ticker : String) (M : Nat)
    (hM : (s.clients.entries.filter fun e =>
      decide (e.2.email = email ∧ env.readyState e.1 = OPEN)).length = M) :
    ((subscribe env s email ticker).2.2.status = 200 →
        (subscribe env s email ticker).2.1.length = M ∧
        (∀ ws, sentTo (subscribe env s email ticker).2.1 ws =
          match s.clients.get ws with
          | some clientData =>
            if clientData.email = email ∧ env.readyState ws = OPEN then
              [Message.subscription_added ticker (s.stockPrices.get ticker)]
            else []
          | none => []) ∧
        (PricesDefined s → ∃ price, s.stockPrices.get ticker = some price)) ∧
      ((unsubscribe env s email ticker).2.2.status = 200 →
        (unsubscribe env s email ticker).2.1.length = M ∧
        ∀ ws, sentTo (unsubscribe env s email ticker).2.1 ws =
          match s.clients.get ws with
          | some clientData =>
            if clientData.email = email ∧ env.readyState ws = OPEN then
              [Message.subscription_removed ticker]
            else []
          | none => []) := by
  constructor
  · intro hok
    rcases subscribe_sent env s email ticker with h1 | h1
    · refine ⟨?_, ?_, ?_⟩
      · rw [h1.2, ← hM]
        exact length_guarded _ _ _
      · intro ws
        rw [h1.2]
        exact sentTo_notifyUserClients env s.clients email _ ws
      · intro hp
        apply hp
        by_contra hns
        by_cases h0 : email = "" ∨ ticker = ""
        · rw [subscribe_of_missing env s email ticker h0] at hok
          simp [Response.status] at hok
        · rw [subscribe_of_unsupported env s email ticker h0 hns] at hok
          simp [Response.status] at hok
    · exact absurd hok h1.1
  · intro hok
    rcases unsubscribe_sent env s email ticker with h1 | h1
    · refine ⟨?_, ?_⟩
      · rw [h1.2, ← hM]
        exact length_guarded _ _ _
      · intro ws
        rw [h1.2]
        exact sentTo_notifyUserClients env s.clients email _ ws
    · exact absurd hok h1.1

/-- C4, at the sample stores: two open sockets are bound to the first user, both get the
notice of a subscribe request and the socket of the second user gets none. -/
theorem subscription_change_reaches_every_socket_witness :
    (sampleState.clients.entries.filter fun e =>
        decide (e.2.email = "a@x.com" ∧ allOpen.readyState e.1 = OPEN)).length = 2 ∧
      (subscribe allOpen sampleState "a@x.com" "NVDA").2.2.status = 200 ∧
      (subscribe allOpen sampleState "a@x.com" "NVDA").2.1.length = 2 ∧
      sentTo (subscribe allOpen sampleState "a@x.com" "NVDA").2.1 3 = [] :=
  ⟨by decide, by decide,
    ((subscription_change_reaches_every_socket allOpen sampleState "a@x.com" "NVDA" 2
      (by decide)).1 (by decide)).1,
    by decide⟩

/-- When no send to an open socket raises, the loop with a raising send makes the sends of
`broadcastPriceUpdate` and ends without an error. -/
theorem broadcastLoop_of_no_raise (raises : WS → Bool) (env : Env) (s : State)
    (ticker : String) (price : ℚ) (hr : ∀ ws, env.readyState ws = OPEN → raises ws = false)
    (l : List (WS × ClientData)) :
    broadcastLoop raises env s ticker price l =
      ⟨l.filterMap fun entry =>
          if (s.heap entry.2.subscriptions).has ticker = true ∧ env.readyState entry.1 = OPEN
          then some (entry.1, Message.price_update ticker price (env.clock entry.1))
          else none,
        none⟩ := by
  induction l with
  | nil => rfl
  | cons e rest ih =>
    by_cases hp : (s.heap e.2.subscriptions).has ticker = true ∧ env.readyState e.1 = OPEN
    · have hne : ¬ raises e.1 = true := by rw [hr e.1 hp.2]; decide
      simp only [broadcastLoop, if_pos hp, if_neg hne, ih, List.filterMap_cons]
    · simp only [broadcastLoop, if_neg hp, ih, List.filterMap_cons]

/-- C5, as stated, fails: sockets `1` and `2` are both open and subscribed to the ticker, the
send to socket `1` raises; the loop ends there, socket `2` gets nothing and the error leaves
`broadcastPriceUpdate`, and with it the interval callback of the tick. -/
theorem send_error_ends_dispatch :
    sampleState.clients.get 2 = some ⟨"a@x.com", 0⟩ ∧
      (sampleState.heap 0).has "GOOG" = true ∧
      allOpen.readyState 2 = OPEN ∧
      (broadcastPriceUpdateRaising (fun ws => decide (ws = 1)) allOpen sampleState
        "GOOG" 150).raised = some 1 ∧
      sentTo (broadcastPriceUpdateRaising (fun ws => decide (ws = 1)) allOpen sampleState
        "GOOG" 150).sent 2 = [] ∧
      (tickRaising (fun ws => decide (ws = 1)) allOpen (fun _ => 1 / 2) sampleState).2.raised
        = some 1 ∧
      sentTo (tickRaising (fun ws => decide (ws = 1)) allOpen (fun _ => 1 / 2)
        sampleState).2.sent 2 = [] := by
  decide

/-- C5, amended: as long as no send to an open socket raises, the dispatch ends without an
error whatever the state of the other sockets, and a socket that is not open takes nothing
from the others: every open socket whose subscription set holds the ticker still gets exactly
one `price_update`. -/
theorem closed_socket_does_not_stop_dispatch (raises : WS → Bool) (env : Env) (s : State)
    (ticker : String) (price : ℚ)
    (hr : ∀ ws, env.readyState ws = OPEN → raises ws = false) :
    (broadcastPriceUpdateRaising raises env s ticker price).raised = none ∧
      ∀ ws, sentTo (broadcastPriceUpdateRaising raises env s ticker price).sent ws =
        match s.clients.get ws with
        | some clientData =>
          if (s.heap clientData.subscriptions).has ticker = true ∧ env.readyState ws = OPEN
          then [Message.price_update ticker price (env.clock ws)]
          else []
        | none => [] := by
  unfold broadcastPriceUpdateRaising
  rw [broadcastLoop_of_no_raise raises env s ticker price hr]
  exact ⟨rfl, fun ws => sentTo_broadcastPriceUpdate env s ticker price ws⟩

/-- C5 amended, at the sample stores: socket `1` is closing (and its send would raise), socket
`2` of the same user is open and gets its update. -/
theorem closed_socket_does_not_stop_dispatch_witness :
    (∀ ws, oneClosing.readyState ws = OPEN → (fun ws => decide (ws = 1)) ws = false) ∧
      (broadcastPriceUpdateRaising (fun ws => decide (ws = 1)) oneClosing sampleState
        "GOOG" 150).raised = none ∧
      sentTo (broadcastPriceUpdateRaising (fun ws => decide (ws = 1)) oneClosing sampleState
        "GOOG" 150).sent 2 = [Message.price_update "GOOG" 150 "2024-01-01T00:00:00.000Z"] := by
  have hr : ∀ ws, oneClosing.readyState ws = OPEN → (fun ws => decide (ws = 1)) ws = false := by
    intro ws h
    by_cases h1 : ws = 1
    · rw [h1] at h
      exact absurd h (by decide)
    · simpa using h1
  have h := closed_socket_does_not_stop_dispatch (fun ws => decide (ws = 1)) oneClosing
    sampleState "GOOG" 150 hr
  exact ⟨hr, h.1, by rw [h.2 2]; decide⟩

/-! ## Registration -/

theorem snapshot_prices (m : JSMap String ℚ) (l : List String)
    (h : ∀ t ∈ l, ∃ price, m.get t = some price) :
    (l.filterMap fun ticker => (m.get ticker).map fun price => (ticker, price)).map Prod.fst
        = l ∧
      ∀ entry ∈ l.filterMap fun ticker => (m.get ticker).map fun price => (ticker, price),
        m.get entry.1 = some entry.2 := by
  induction l with
  | nil => exact ⟨rfl, fun _ h => by cases h⟩
  | cons t rest ih =>
    obtain ⟨price, hp⟩ := h t (List.mem_cons_self _ _)
    obtain ⟨ih1, ih2⟩ := ih (fun a ha => h a (List.mem_cons_of_mem _ ha))
    simp only [List.filterMap_cons, hp, Option.map_some', List.map_cons, ih1, List.mem_cons]
    refine ⟨trivial, ?_⟩
    rintro entry (rfl | he)
    · exact hp
    · exact ih2 entry he

/-- C6: for a user of the registry whose subscription set `S` lies in the supported universe,
a register message with that user's key on any socket sends that socket exactly one
`initial_prices` message and sends nothing to any other socket; the keys of its `prices` are
the elements of `S`, each with the current price of the ticker, and its `subscriptions` list
is `S`. -/
theorem register_sends_one_snapshot (s : State) (hs : Reachable s) (ws : WS) (email : String)
    (user : User) (hu : s.users.get email = some user)
    (hS : ∀ t ∈ (s.heap user.subscriptions).elems, t ∈ SUPPORTED_STOCKS) :
    ∃ prices,
      (register s ws email).2 =
        [(ws, Message.initial_prices prices (s.heap user.subscriptions).elems)] ∧
      prices.map Prod.fst = (s.heap user.subscriptions).elems ∧
      (∀ entry ∈ prices, s.stockPrices.get entry.1 = some entry.2) ∧
      ∀ other, other ≠ ws → sentTo (register s ws email).2 other = [] := by
  have hp := reachable_pricesDefined s hs
  obtain ⟨h1, h2⟩ := snapshot_prices s.stockPrices (s.heap user.subscriptions).elems
    (fun t ht => hp t (hS t ht))
  refine ⟨_, ?_, h1, h2, fun other ho => (register_other s ws other email ho).2⟩
  rw [register_of_known s ws email user hu]
  rfl

/-- C6, at the sample stores: a registration of the first user, who holds GOOG and TSLA, on
socket `5`. -/
theorem register_sends_one_snapshot_witness :
    sampleState.users.get "a@x.com" = some ⟨"a@x.com", 0⟩ ∧
      (sampleState.heap 0).elems = ["GOOG", "TSLA"] ∧
      ∃ prices,
        (register sampleState 5 "a@x.com").2 =
          [(5, Message.initial_prices prices ["GOOG", "TSLA"])] ∧
        prices.map Prod.fst = ["GOOG", "TSLA"] :=
  ⟨by decide, by decide,
    (register_sends_one_snapshot sampleState sampleState_reachable 5 "a@x.com"
      ⟨"a@x.com", 0⟩ (by decide) (by decide)).imp fun _ h => ⟨h.1, h.2.1⟩⟩

/-! ## The subscription registry -/

theorem JSSet.mem_add (s : JSSet) (t i : String) :
    i ∈ (s.add t).elems ↔ i = t ∨ i ∈ s.elems := by
  unfold JSSet.add
  by_cases h : t ∈ s.elems
  · simp only [dif_pos h]
    exact ⟨Or.inr, fun hi => hi.elim (fun e => e ▸ h) id⟩
  · simp only [dif_neg h, List.mem_append, List.mem_singleton]
    tauto

theorem JSSet.mem_delete (s : JSSet) (t i : String) :
    i ∈ (s.delete t).elems ↔ i ≠ t ∧ i ∈ s.elems :=
  List.Nodup.mem_erase_iff s.nodup

theorem JSSet.add_of_mem (s : JSSet) (t : String) (h : t ∈ s.elems) : s.add t = s := by
  unfold JSSet.add
  simp only [dif_pos h]

theorem JSSet.delete_of_not_mem (s : JSSet) (t : String) (h : t ∉ s.elems) :
    s.delete t = s :=
  JSSet.ext_elems (List.erase_of_not_mem h)

theorem lastCall_cons (x : Env × Call) (rest : List (Env × Call)) (i : String) :
    lastCall (x :: rest) i =
      match lastCall rest i with
      | some c => some c
      | none => if x.2.ticker = i then some x.2 else none := by
  unfold lastCall
  rw [List.map_cons]
  by_cases h : x.2.ticker = i
  · rw [List.filter_cons_of_pos (by simpa using h), List.getLast?_cons, if_pos h]
    cases ((rest.map Prod.snd).filter fun c => decide (c.ticker = i)).getLast? <;> rfl
  · rw [List.filter_cons_of_neg (by simpa using h), if_neg h]
    cases ((rest.map Prod.snd).filter fun c => decide (c.ticker = i)).getLast? <;> rfl

theorem supported_ne_empty (t : String) (h : t ∈ SUPPORTED_STOCKS) : t ≠ "" := by
  intro h0
  rw [h0] at h
  exact absurd h (by decide)

/-- C7: for a logged-in user (a key that login accepts, present in `users`) and any sequence of
subscribe and unsubscribe requests of that user with supported tickers, the user's final
subscription set holds a ticker exactly when the last request naming it is a subscribe, or no
request names it and it was in the set at the start; a subscribe of a ticker already in the
set and an unsubscribe of one not in it leave the set as it is. -/
theorem replay_is_last_write_wins (s : State) (email : String) (user : User)
    (calls : List (Env × Call))
    (hv : ¬(email = "" ∨ '@' ∉ email.toList))
    (hu : s.users.get email = some user)
    (hc : ∀ c ∈ calls, c.2.ticker ∈ SUPPORTED_STOCKS) :
    (replay s email calls).users.get email = some user ∧
      (∀ i, i ∈ ((replay s email calls).heap user.subscriptions).elems ↔
        lastCall calls i = some (Call.subscribe i) ∨
          (lastCall calls i = none ∧ i ∈ (s.heap user.subscriptions).elems)) ∧
      (∀ env t, t ∈ SUPPORTED_STOCKS → t ∈ (s.heap user.subscriptions).elems →
        (subscribe env s email t).1.heap user.subscriptions = s.heap user.subscriptions) ∧
      (∀ env t, t ∉ (s.heap user.subscriptions).elems →
        (unsubscribe env s email t).1.heap user.subscriptions = s.heap user.subscriptions) := by
  have he : email ≠ "" := fun h => hv (Or.inl h)
  have hguard : ∀ t, t ∈ SUPPORTED_STOCKS → ¬(email = "" ∨ t = "") := fun t ht h =>
    h.elim he (supported_ne_empty t ht)
  refine ⟨?_, ?_, ?_, ?_⟩
  · induction calls generalizing s with
    | nil => exact hu
    | cons x rest ih =>
      obtain ⟨env, c⟩ := x
      have hrest : ∀ c ∈ rest, c.2.ticker ∈ SUPPORTED_STOCKS := fun y hy =>
        hc y (List.mem_cons_of_mem _ hy)
      cases c with
      | subscribe t =>
        exact ih _ (by rw [(subscribe_frame env s email t).2.1]; exact hu) hrest
      | unsubscribe t =>
        exact ih _ (by rw [(unsubscribe_frame env s email t).2.1]; exact hu) hrest
  · induction calls generalizing s with
    | nil =>
      intro i
      simp [replay, lastCall]
    | cons x rest ih =>
      obtain ⟨env, c⟩ := x
      have hrest : ∀ c ∈ rest, c.2.ticker ∈ SUPPORTED_STOCKS := fun y hy =>
        hc y (List.mem_cons_of_mem _ hy)
      intro i
      rw [lastCall_cons]
      cases c with
      | subscribe t =>
        have ht : t ∈ SUPPORTED_STOCKS := hc (env, Call.subscribe t) (List.mem_cons_self _ _)
        have hstep := subscribe_of_known env s email t user (hguard t ht) ht hu
        have hu1 : (subscribe env s email t).1.users.get email = some user := by
          rw [(subscribe_frame env s email t).2.1]; exact hu
        have hheap : (subscribe env s email t).1.heap user.subscriptions =
            (s.heap user.subscriptions).add t := by
          rw [hstep]; simp only [Function.update_same]
        rw [show replay s email ((env, Call.subscribe t) :: rest) =
          replay (subscribe env s email t).1 email rest from rfl, ih _ hu1 hrest i, hheap,
          JSSet.mem_add]
        cases lastCall rest i with
        | some c => simp
        | none =>
          by_cases hti : t = i
          · subst hti
            simp [Call.ticker]
          · simp [Call.ticker, hti, Ne.symm hti]
      | unsubscribe t =>
        have hstep := unsubscribe_of_known env s email t user hu
        have hu1 : (unsubscribe env s email t).1.users.get email = some user := by
          rw [(unsubscribe_frame env s email t).2.1]; exact hu
        have hheap : (unsubscribe env s email t).1.heap user.subscriptions =
            (s.heap user.subscriptions).delete t := by
          rw [hstep]; simp only [Function.update_same]
        rw [show replay s email ((env, Call.unsubscribe t) :: rest) =
          replay (unsubscribe env s email t).1 email rest from rfl, ih _ hu1 hrest i, hheap,
          JSSet.mem_delete]
        cases lastCall rest i with
        | some c => simp
        | none =>
          by_cases hti : t = i
          · subst hti
            simp [Call.ticker]
          · simp [Call.ticker, hti, Ne.symm hti]
  · intro env t ht hmem
    rw [subscribe_of_known env s email t user (hguard t ht) ht hu]
    simp only [Function.update_same]
    exact JSSet.add_of_mem _ _ hmem
  · intro env t hmem
    rw [unsubscribe_of_known env s email t user hu]
    simp only [Function.update_same]
    exact JSSet.delete_of_not_mem _ _ hmem

/-- C7, at the sample stores: the first user holds GOOG and TSLA; after the four sample
requests GOOG is in the set (last named by a subscribe) and TSLA is not. -/
theorem replay_is_last_write_wins_witness :
    ¬("a@x.com" = "" ∨ '@' ∉ "a@x.com".toList) ∧
      sampleState.users.get "a@x.com" = some ⟨"a@x.com", 0⟩ ∧
      (∀ c ∈ sampleCalls, c.2.ticker ∈ SUPPORTED_STOCKS) ∧
      "GOOG" ∈ ((replay sampleState "a@x.com" sampleCalls).heap 0).elems ∧
      "TSLA" ∉ ((replay sampleState "a@x.com" sampleCalls).heap 0).elems :=
  ⟨by decide, by decide, by decide,
    ((replay_is_last_write_wins sampleState "a@x.com" ⟨"a@x.com", 0⟩ sampleCalls (by decide)
      (by decide) (by decide)).2.1 "GOOG").mpr (Or.inl (by decide)),
    fun h => absurd
      (((replay_is_last_write_wins sampleState "a@x.com" ⟨"a@x.com", 0⟩ sampleCalls (by decide)
        (by decide) (by decide)).2.1 "TSLA").mp h) (by decide)⟩

/-- C8, as stated, fails at the empty key: it is not in `users`, the ticker is supported, and
the request is answered 400 `Email and ticker are required`, not 404. -/
theorem subscribe_empty_key_is_400 :
    sampleState.users.get "" = none ∧ "GOOG" ∈ SUPPORTED_STOCKS ∧
      (subscribe allOpen sampleState "" "GOOG").2.2 =
        Response.failure 400 "Email and ticker are required" none ∧
      (subscribe allOpen sampleState "" "GOOG").2.2.status ≠ 404 := by
  decide

/-- C8, amended: for every state, every non-empty user key that is not in `users` and every
supported ticker, a subscribe request is answered 404 `User not found`, leaves all stores as
they are and sends nothing. -/
theorem subscribe_unknown_user_is_404 (env : Env) (s : State) (email ticker : String)
    (he : email ≠ "") (hu : s.users.get email = none) (ht : ticker ∈ SUPPORTED_STOCKS) :
    subscribe env s email ticker =
        (s, [], Response.failure 404 "User not found. Please login first." none) ∧
      (subscribe env s email ticker).2.2.status = 404 := by
  have h := subscribe_of_unknown env s email ticker
    (fun h => h.elim he (supported_ne_empty ticker ht)) ht hu
  exact ⟨h, by rw [h]; rfl⟩

/-- C8 amended, at the sample stores, for a key that never logged in. -/
theorem subscribe_unknown_user_is_404_witness :
    "c@z.com" ≠ "" ∧ sampleState.users.get "c@z.com" = none ∧ "GOOG" ∈ SUPPORTED_STOCKS ∧
      subscribe allOpen sampleState "c@z.com" "GOOG" =
        (sampleState, [], Response.failure 404 "User not found. Please login first." none) :=
  ⟨by decide, by decide, by decide,
    (subscribe_unknown_user_is_404 allOpen sampleState "c@z.com" "GOOG" (by decide) (by decide)
      (by decide)).1⟩

/-- C9, as stated, fails at the empty identifier: it is outside the universe, the user is
logged in, and the answer is 400 `Email and ticker are required`, without the `supported`
list. -/
theorem subscribe_empty_ticker_has_no_supported_list :
    sampleState.users.get "a@x.com" = some ⟨"a@x.com", 0⟩ ∧ "" ∉ SUPPORTED_STOCKS ∧
      (subscribe allOpen sampleState "a@x.com" "").2.2 =
        Response.failure 400 "Email and ticker are required" none ∧
      (subscribe allOpen sampleState "a@x.com" "").2.2 ≠
        Response.failure 400 "Stock not supported" (some SUPPORTED_STOCKS) := by
  decide

/-- C9, amended: for every logged-in user and every non-empty identifier outside the universe
GOOG, TSLA, AMZN, META, NVDA, a subscribe request is answered 400 `Stock not supported` with
the supported universe, leaves all stores (so every user's set) as they are and sends
nothing. -/
theorem subscribe_unsupported_is_400 (env : Env) (s : State) (email ticker : String)
    (user : User) (hv : ¬(email = "" ∨ '@' ∉ email.toList))
    (hu : s.users.get email = some user) (hne : ticker ≠ "")
    (ht : ticker ∉ SUPPORTED_STOCKS) :
    subscribe env s email ticker =
        (s, [], Response.failure 400 "Stock not supported" (some SUPPORTED_STOCKS)) ∧
      (subscribe env s email ticker).2.2.status = 400 ∧
      s.users.get email = some user ∧
      SUPPORTED_STOCKS = ["GOOG", "TSLA", "AMZN", "META", "NVDA"] := by
  have h := subscribe_of_unsupported env s email ticker
    (fun h => h.elim (fun h0 => hv (Or.inl h0)) hne) ht
  exact ⟨h, by rw [h]; rfl, hu, rfl⟩

/-- C9 amended, at the sample stores, for the identifier MSFT. -/
theorem subscribe_unsupported_is_400_witness :
    ¬("a@x.com" = "" ∨ '@' ∉ "a@x.com".toList) ∧
      sampleState.users.get "a@x.com" = some ⟨"a@x.com", 0⟩ ∧ "MSFT" ≠ "" ∧
      "MSFT" ∉ SUPPORTED_STOCKS ∧
      subscribe allOpen sampleState "a@x.com" "MSFT" =
        (sampleState, [], Response.failure 400 "Stock not supported" (some SUPPORTED_STOCKS)) :=
  ⟨by decide, by decide, by decide, by decide,
    (subscribe_unsupported_is_400 allOpen sampleState "a@x.com" "MSFT" ⟨"a@x.com", 0⟩
      (by decide) (by decide) (by decide) (by decide)).1⟩

/-- C10: an unsubscribe request fails exactly when the user key is not in `users`, with 404
`User not found` and all stores as they were; for a user in `users` with set `S` it succeeds,
stores `S` without the ticker for that user (no other set changes) and returns it, so that for
a ticker that is not in `S`, supported or not, it succeeds, returns `S` and leaves all stores
as they were. -/
theorem unsubscribe_fails_iff_unknown (env : Env) (s : State) (email ticker : String) :
    ((unsubscribe env s email ticker).2.2.status ≠ 200 ↔ s.users.get email = none) ∧
      (s.users.get email = none →
        unsubscribe env s email ticker =
          (s, [], Response.failure 404 "User not found" none)) ∧
      (∀ user, s.users.get email = some user →
        (unsubscribe env s email ticker).2.2 =
          Response.success none ((s.heap user.subscriptions).delete ticker).toArray ∧
        (unsubscribe env s email ticker).1.users = s.users ∧
        (unsubscribe env s email ticker).1.heap user.subscriptions =
          (s.heap user.subscriptions).delete ticker ∧
        (∀ ref, ref ≠ user.subscriptions →
          (unsubscribe env s email ticker).1.heap ref = s.heap ref) ∧
        (∀ i, i ∈ ((s.heap user.subscriptions).delete ticker).elems ↔
          i ≠ ticker ∧ i ∈ (s.heap user.subscriptions).elems) ∧
        (ticker ∉ (s.heap user.subscriptions).elems →
          (unsubscribe env s email ticker).1 = s ∧
          (unsubscribe env s email ticker).2.2 =
            Response.success none (s.heap user.subscriptions).toArray)) := by
  refine ⟨?_, fun h => unsubscribe_of_unknown env s email ticker h, ?_⟩
  · cases h : s.users.get email with
    | none =>
      rw [unsubscribe_of_unknown env s email ticker h]
      simp [Response.status]
    | some user =>
      rw [unsubscribe_of_known env s email ticker user h]
      simp [Response.status]
  · intro user hu
    rw [unsubscribe_of_known env s email ticker user hu]
    refine ⟨rfl, rfl, by simp only [Function.update_same], ?_, ?_, ?_⟩
    · intro ref href
      simp only [Function.update_noteq href]
    · exact fun i => JSSet.mem_delete _ _ _
    · intro hmem
      rw [JSSet.delete_of_not_mem _ _ hmem]
      refine ⟨?_, rfl⟩
      simp only [Function.update_eq_self]

/-! ## Login -/

theorem contains_at_ne_empty (email : String) (h : '@' ∈ email.toList) : email ≠ "" := by
  intro h0
  rw [h0] at h
  exact absurd h (by decide)

theorem login_of_invalid (s : State) (email : String) (h : email = "" ∨ '@' ∉ email.toList) :
    login s email = (s, Response.failure 400 "Valid email is required" none) := by
  unfold login
  rw [if_pos h]

theorem login_of_known (s : State) (email : String) (user : User)
    (hv : ¬(email = "" ∨ '@' ∉ email.toList)) (hu : s.users.get email = some user) :
    login s email =
      (s, Response.success (some user.email) (s.heap user.subscriptions).toArray) := by
  unfold login
  have hhas : s.users.has email = true := by simp [JSMap.has, hu]
  rw [if_neg hv]
  simp only [hhas, if_true, hu]

theorem login_of_unseen (s : State) (email : String)
    (hv : ¬(email = "" ∨ '@' ∉ email.toList)) (hu : s.users.get email = none) :
    login s email =
      ({ s with
          heap := Function.update s.heap s.nextRef JSSet.empty
          nextRef := s.nextRef + 1
          users := s.users.set email ⟨email, s.nextRef⟩ },
        Response.success (some email) []) := by
  unfold login
  have hhas : s.users.has email = false := by simp [JSMap.has, hu]
  rw [if_neg hv]
  simp only [hhas, Bool.false_eq_true, if_false, JSMap.get_set_self, Function.update_same]
  rfl

theorem login_allocated (s : State) (email : String) (h : Allocated s) :
    Allocated (login s email).1 := by
  by_cases hv : email = "" ∨ '@' ∉ email.toList
  · rw [login_of_invalid s email hv]
    exact h
  · cases hu : s.users.get email with
    | some user =>
      rw [login_of_known s email user hv hu]
      exact h
    | none =>
      rw [login_of_unseen s email hv hu]
      intro key user hget
      simp only at hget ⊢
      by_cases hk : key = email
      · rw [hk, JSMap.get_set_self] at hget
        cases hget
        exact Nat.lt_succ_self _
      · rw [JSMap.get_set_ne _ _ _ _ hk] at hget
        exact Nat.lt_succ_of_lt (h key user hget)

theorem subscribe_nextRef (env : Env) (s : State) (email ticker : String) :
    (subscribe env s email ticker).1.nextRef = s.nextRef := by
  by_cases h1 : email = "" ∨ ticker = ""
  · rw [subscribe_of_missing env s email ticker h1]
  · by_cases h2 : ticker ∈ SUPPORTED_STOCKS
    · cases h3 : s.users.get email with
      | none => rw [subscribe_of_unknown env s email ticker h1 h2 h3]
      | some user => rw [subscribe_of_known env s email ticker user h1 h2 h3]
    · rw [subscribe_of_unsupported env s email ticker h1 h2]

theorem unsubscribe_nextRef (env : Env) (s : State) (email ticker : String) :
    (unsubscribe env s email ticker).1.nextRef = s.nextRef := by
  cases h3 : s.users.get email with
  | none => rw [unsubscribe_of_unknown env s email ticker h3]
  | some user => rw [unsubscribe_of_known env s email ticker user h3]

theorem register_nextRef (s : State) (ws : WS) (email : String) :
    (register s ws email).1.nextRef = s.nextRef := by
  cases h : s.users.get email with
  | none => rw [register_of_unknown s ws email h]
  | some user => rw [register_of_known s ws email user h]

theorem foldl_tickOne_nextRef (env : Env) (rand : String → ℚ) (tickers : List String)
    (acc : State × List (WS × Message)) :
    (tickers.foldl (tickOne env rand) acc).1.nextRef = acc.1.nextRef := by
  induction tickers generalizing acc with
  | nil => rfl
  | cons t rest ih =>
    rw [List.foldl_cons, ih]
    unfold tickOne
    cases acc.1.stockPrices.get t <;> rfl

theorem step_allocated (env : Env) (s : State) (e : Event) (h : Allocated s) :
    Allocated (step env s e).1 := by
  cases e with
  | login email => exact login_allocated s email h
  | subscribe email ticker =>
    intro key user hget
    simp only [step, (subscribe_frame env s email ticker).2.1] at hget
    simp only [step, subscribe_nextRef]
    exact h key user hget
  | unsubscribe email ticker =>
    intro key user hget
    simp only [step, (unsubscribe_frame env s email ticker).2.1] at hget
    simp only [step, unsubscribe_nextRef]
    exact h key user hget
  | register a email =>
    intro key user hget
    simp only [step, (register_frame s a email).1] at hget
    simp only [step, register_nextRef]
    exact h key user hget
  | close a => exact h
  | tick rand =>
    intro key user hget
    simp only [step, (tick_frame env rand s).2.1] at hget
    have hn : (tick env rand s).1.nextRef = s.nextRef :=
      foldl_tickOne_nextRef env rand SUPPORTED_STOCKS (s, [])
    simp only [step, hn]
    exact h key user hget

theorem run_allocated (trace : List (Env × Event)) (s : State) (h : Allocated s) :
    Allocated (run s trace).1 := by
  induction trace generalizing s with
  | nil => exact h
  | cons x rest ih =>
    obtain ⟨env, e⟩ := x
    simp only [run]
    exact ih _ (step_allocated env s e h)

theorem loadUserData_allocated (data : List (String × List String)) (s : State)
    (h : Allocated s) : Allocated (loadUserData data s) := by
  unfold loadUserData
  induction data generalizing s with
  | nil => exact h
  | cons entry rest ih =>
    rw [List.foldl_cons]
    apply ih
    intro key user hget
    simp only at hget ⊢
    by_cases hk : key = entry.1
    · rw [hk, JSMap.get_set_self] at hget
      cases hget
      exact Nat.lt_succ_self _
    · rw [JSMap.get_set_ne _ _ _ _ hk] at hget
      exact Nat.lt_succ_of_lt (h key user hget)

theorem reachable_allocated (s : State) (h : Reachable s) : Allocated s := by
  obtain ⟨rand, data, trace, rfl⟩ := h
  apply run_allocated
  unfold init
  apply loadUserData_allocated
  intro key user hget
  simp [JSMap.get_empty] at hget

/-- C11: in every state the server can be in and for every user key that contains `@`, a
login with an unseen key adds the key with an empty subscription set, leaves every other key
as it is and returns the empty set; a login with a key already in `users` returns that user's
set and leaves all stores as they are; a second login with the same key yields the same stores
and the same answer as the first; and no login, whatever its key, changes the entry or the
subscription set of a user already in `users`. -/
theorem login_twice_is_login_once (s : State) (hs : Reachable s) (email : String)
    (hv : '@' ∈ email.toList) :
    (s.users.get email = none →
        (login s email).2 = Response.success (some email) [] ∧
        (∃ user, (login s email).1.users.get email = some user ∧
          (login s email).1.heap user.subscriptions = JSSet.empty) ∧
        ∀ key, key ≠ email → (login s email).1.users.get key = s.users.get key) ∧
      (∀ user, s.users.get email = some user →
        login s email =
          (s, Response.success (some user.email) (s.heap user.subscriptions).toArray)) ∧
      login (login s email).1 email = login s email ∧
      (∀ other key user, s.users.get key = some user →
        (login s other).1.users.get key = some user ∧
        (login s other).1.heap user.subscriptions = s.heap user.subscriptions) := by
  have hguard : ¬(email = "" ∨ '@' ∉ email.toList) := fun h =>
    h.elim (contains_at_ne_empty email hv) (fun h1 => h1 hv)
  refine ⟨?_, fun user hu => login_of_known s email user hguard hu, ?_, ?_⟩
  · intro hu
    rw [login_of_unseen s email hguard hu]
    refine ⟨rfl, ⟨⟨email, s.nextRef⟩, JSMap.get_set_self _ _ _, ?_⟩, ?_⟩
    · simp only [Function.update_same]
    · intro key hk
      exact JSMap.get_set_ne _ _ _ _ hk
  · cases hu : s.users.get email with
    | some user =>
      rw [login_of_known s email user hguard hu, login_of_known s email user hguard hu]
    | none =>
      rw [login_of_unseen s email hguard hu]
      rw [login_of_known _ email ⟨email, s.nextRef⟩ hguard (JSMap.get_set_self _ _ _)]
      simp only [Function.update_same]
      rfl
  · intro other key user hget
    refine ⟨login_users_get s other key user hget, ?_⟩
    by_cases ho : other = "" ∨ '@' ∉ other.toList
    · rw [login_of_invalid s other ho]
    · cases hu : s.users.get other with
      | some u => rw [login_of_known s other u ho hu]
      | none =>
        rw [login_of_unseen s other ho hu]
        have hlt := reachable_allocated s hs key user hget
        simp only [Function.update_noteq (Nat.ne_of_lt hlt)]

/-- C11, at the sample stores: a first login of a new key, and the same login again. -/
theorem login_twice_is_login_once_witness :
    '@' ∈ "c@z.com".toList ∧ sampleState.users.get "c@z.com" = none ∧
      (login sampleState "c@z.com").2 = Response.success (some "c@z.com") [] ∧
      login (login sampleState "c@z.com").1 "c@z.com" = login sampleState "c@z.com" :=
  ⟨by decide, by decide,
    ((login_twice_is_login_once sampleState sampleState_reachable "c@z.com" (by decide)).1
      (by decide)).1,
    (login_twice_is_login_once sampleState sampleState_reachable "c@z.com" (by decide)).2.2.1⟩

/-! ## The price generator -/

/-- The arithmetic of one round of the tick, over the rationals: from a price of at least 10
and a draw in `[0, 1)`, the new price is at least 10 and within 5% of the old one. -/
theorem newPrice_in_band (p r : ℚ) (hp : 10 ≤ p) (h0 : 0 ≤ r) (h1 : r < 1) :
    10 ≤ max 10 (p + (r - 1 / 2) * (1 / 10) * p) ∧
      |max 10 (p + (r - 1 / 2) * (1 / 10) * p) - p| ≤ 1 / 20 * p := by
  have hlo : -(1 / 20 * p) ≤ (r - 1 / 2) * (1 / 10) * p := by nlinarith
  have hhi : (r - 1 / 2) * (1 / 10) * p ≤ 1 / 20 * p := by nlinarith
  refine ⟨le_max_left _ _, ?_⟩
  rw [abs_le]
  rcases le_total 10 (p + (r - 1 / 2) * (1 / 10) * p) with h | h
  · rw [max_eq_right h]
    constructor <;> linarith
  · rw [max_eq_left h]
    constructor <;> linarith

theorem foldl_tickOne_get (env : Env) (rand : String → ℚ) (tickers : List String)
    (hl : tickers.Nodup) (acc : State × List (WS × Message)) (a : String) (p : ℚ)
    (hget : acc.1.stockPrices.get a = some p) :
    (tickers.foldl (tickOne env rand) acc).1.stockPrices.get a =
      some (if a ∈ tickers then max 10 (p + (rand a - 1 / 2) * (1 / 10) * p) else p) := by
  induction tickers generalizing acc p with
  | nil => simpa using hget
  | cons t rest ih =>
    rw [List.nodup_cons] at hl
    rw [List.foldl_cons]
    by_cases hta : t = a
    · subst hta
      have hstep : (tickOne env rand acc t).1.stockPrices.get t =
          some (max 10 (p + (rand t - 1 / 2) * (1 / 10) * p)) := by
        unfold tickOne
        simp only [hget, JSMap.get_set_self]
      rw [ih hl.2 _ _ hstep]
      simp [hl.1]
    · have hstep : (tickOne env rand acc t).1.stockPrices.get a = some p := by
        unfold tickOne
        cases acc.1.stockPrices.get t with
        | none => exact hget
        | some q =>
          simp only [JSMap.get_set_ne _ _ _ _ (Ne.symm hta)]
          exact hget
      rw [ih hl.2 _ _ hstep]
      simp [Ne.symm hta]

theorem foldl_tickOne_aboveFloor (env : Env) (rand : String → ℚ) (tickers : List String)
    (acc : State × List (WS × Message)) (h : AboveFloor acc.1) :
    AboveFloor (tickers.foldl (tickOne env rand) acc).1 := by
  induction tickers generalizing acc with
  | nil => exact h
  | cons t rest ih =>
    rw [List.foldl_cons]
    apply ih
    unfold tickOne
    cases acc.1.stockPrices.get t with
    | none => exact h
    | some q =>
      intro ticker price hget
      simp only at hget
      by_cases hk : ticker = t
      · rw [hk, JSMap.get_set_self] at hget
        cases hget
        exact le_max_left _ _
      · rw [JSMap.get_set_ne _ _ _ _ hk] at hget
        exact h ticker price hget

theorem step_aboveFloor (env : Env) (s : State) (e : Event) (h : AboveFloor s) :
    AboveFloor (step env s e).1 := by
  cases e with
  | login email =>
    intro ticker price hget
    simp only [step, login_stockPrices] at hget
    exact h ticker price hget
  | subscribe email t =>
    intro ticker price hget
    simp only [step, (subscribe_frame env s email t).2.2] at hget
    exact h ticker price hget
  | unsubscribe email t =>
    intro ticker price hget
    simp only [step, (unsubscribe_frame env s email t).2.2] at hget
    exact h ticker price hget
  | register a email =>
    intro ticker price hget
    simp only [step, (register_frame s a email).2.1] at hget
    exact h ticker price hget
  | close a => exact h
  | tick rand => exact foldl_tickOne_aboveFloor env rand SUPPORTED_STOCKS (s, []) h

theorem run_aboveFloor (trace : List (Env × Event)) (s : State) (h : AboveFloor s) :
    AboveFloor (run s trace).1 := by
  induction trace generalizing s with
  | nil => exact h
  | cons x rest ih =>
    obtain ⟨env, e⟩ := x
    simp only [run]
    exact ih _ (step_aboveFloor env s e h)

theorem foldl_set_get (f : String → ℚ) (tickers : List String) (m : JSMap String ℚ)
    (a : String) (v : ℚ)
    (h : (tickers.foldl (fun m ticker => m.set ticker (f ticker)) m).get a = some v) :
    v = f a ∨ m.get a = some v := by
  induction tickers generalizing m with
  | nil => exact Or.inr h
  | cons t rest ih =>
    rw [List.foldl_cons] at h
    rcases ih _ h with h1 | h1
    · exact Or.inl h1
    · by_cases hk : a = t
      · rw [hk, JSMap.get_set_self] at h1
        cases h1
        exact Or.inl (by rw [hk])
      · rw [JSMap.get_set_ne _ _ _ _ hk] at h1
        exact Or.inr h1

/-- The prices the server starts with: `Math.random() * 1000 + 100` for the draw of the
ticker. -/
theorem init_price (rand : String → ℚ) (data : List (String × List String)) (ticker : String)
    (ht : ticker ∈ SUPPORTED_STOCKS) :
    (init rand data).stockPrices.get ticker = some (rand ticker * 1000 + 100) := by
  obtain ⟨price, hp⟩ := init_pricesDefined rand data ticker ht
  have h := hp
  unfold init at h
  rw [(loadUserData_frame data _).2] at h
  rcases foldl_set_get (fun t => rand t * 1000 + 100) SUPPORTED_STOCKS JSMap.empty ticker price
    h with h1 | h1
  · rw [hp, h1]
  · simp [JSMap.get_empty] at h1

theorem init_aboveFloor (rand : String → ℚ) (data : List (String × List String))
    (h0 : ∀ t, 0 ≤ rand t ∧ rand t < 1) : AboveFloor (init rand data) := by
  intro ticker price hget
  unfold init at hget
  rw [(loadUserData_frame data _).2] at hget
  rcases foldl_set_get (fun t => rand t * 1000 + 100) SUPPORTED_STOCKS JSMap.empty ticker price
    hget with h1 | h1
  · rw [h1]
    have := (h0 ticker).1
    show (10 : ℚ) ≤ rand ticker * 1000 + 100
    linarith
  · simp [JSMap.get_empty] at h1

/-- C12: the server starts with every price in `[100, 1100)` when the start-up draws lie in
`[0, 1)`; in every state reached from there by any run, a tick whose draw `r` for a ticker
lies in `[0, 1)` takes the price `p` of the ticker to `p' = max(10, p + (r - 1/2) * (1/10) * p)`
with `p' ≥ 10` and `|p' - p| ≤ (1/20) * p`, over exact rational arithmetic. -/
theorem tick_keeps_price_in_band (rand0 : String → ℚ) (data : List (String × List String))
    (trace : List (Env × Event)) (env : Env) (rand : String → ℚ) (ticker : String)
    (h0 : ∀ t, 0 ≤ rand0 t ∧ rand0 t < 1) (ht : ticker ∈ SUPPORTED_STOCKS)
    (hr : 0 ≤ rand ticker ∧ rand ticker < 1) :
    (∃ p0, (init rand0 data).stockPrices.get ticker = some p0 ∧ 100 ≤ p0 ∧ p0 < 1100) ∧
      ∃ p p', (run (init rand0 data) trace).1.stockPrices.get ticker = some p ∧
        (tick env rand (run (init rand0 data) trace).1).1.stockPrices.get ticker = some p' ∧
        p' = max 10 (p + (rand ticker - 1 / 2) * (1 / 10) * p) ∧
        10 ≤ p' ∧ |p' - p| ≤ 1 / 20 * p := by
  constructor
  · refine ⟨_, init_price rand0 data ticker ht, ?_, ?_⟩
    · have := (h0 ticker).1
      linarith
    · have := (h0 ticker).2
      linarith
  · obtain ⟨p, hp⟩ := run_pricesDefined trace _ (init_pricesDefined rand0 data) ticker ht
    have hfloor := run_aboveFloor trace _ (init_aboveFloor rand0 data h0) ticker p hp
    have hband := newPrice_in_band p (rand ticker) hfloor hr.1 hr.2
    refine ⟨p, _, hp, ?_, rfl, hband.1, hband.2⟩
    have h := foldl_tickOne_get env rand SUPPORTED_STOCKS (by decide)
      ((run (init rand0 data) trace).1, []) ticker p hp
    rw [if_pos ht] at h
    exact h

/-- C12, at the sample stores: every start-up draw is 0, so GOOG starts at 100; after the
sample run a tick with draw 0 for every ticker keeps GOOG in the band. -/
theorem tick_keeps_price_in_band_witness :
    (∀ t : String, (0 : ℚ) ≤ (fun _ => (0 : ℚ)) t ∧ (fun _ => (0 : ℚ)) t < 1) ∧
      "GOOG" ∈ SUPPORTED_STOCKS ∧
      (init (fun _ => 0) [("a@x.com", ["GOOG", "TSLA"])]).stockPrices.get "GOOG" = some 100 ∧
      ∃ p p', (run (init (fun _ => 0) [("a@x.com", ["GOOG", "TSLA"])])
          sampleTrace).1.stockPrices.get "GOOG" = some p ∧
        (tick allOpen (fun _ => 0) (run (init (fun _ => 0) [("a@x.com", ["GOOG", "TSLA"])])
          sampleTrace).1).1.stockPrices.get "GOOG" = some p' ∧
        10 ≤ p' ∧ |p' - p| ≤ 1 / 20 * p := by
  have hd : ∀ t : String, (0 : ℚ) ≤ (fun _ => (0 : ℚ)) t ∧ (fun _ => (0 : ℚ)) t < 1 :=
    fun _ => ⟨le_refl _, by norm_num⟩
  obtain ⟨p, p', h1, h2, _, h4, h5⟩ :=
    (tick_keeps_price_in_band (fun _ => 0) [("a@x.com", ["GOOG", "TSLA"])] sampleTrace allOpen
      (fun _ => 0) "GOOG" hd (by decide) ⟨le_refl _, by norm_num⟩).2
  refine ⟨hd, by decide, ?_, p, p', h1, h2, h4, h5⟩
  rw [init_price _ _ "GOOG" (by decide)]
  norm_num

/-! ## The price history of the client -/

theorem updateStockPrice_history (displayed : String → Bool) (c : Client) (ticker : String)
    (price : ℚ) (samples : List (Option ℚ)) (hd : displayed ticker = true)
    (h : c.priceHistory ticker = some samples) :
    (updateStockPrice displayed c ticker price).priceHistory ticker =
      some (if samples.length + 1 > 60 then (samples ++ [some price]).tail
        else samples ++ [some price]) := by
  unfold updateStockPrice
  have hnd : ¬ displayed ticker = false := by rw [hd]; decide
  rw [if_neg hnd]
  simp only [h, Function.update_same, List.length_append, List.length_singleton]

theorem applyUpdates_history (ticker : String) (updates : List ((String → Bool) × ℚ))
    (c : Client) (samples : List (Option ℚ)) (h : c.priceHistory ticker = some samples)
    (hlen : samples.length ≤ 60) (hd : ∀ u ∈ updates, u.1 ticker = true) :
    (applyUpdates c ticker updates).priceHistory ticker =
      some ((samples ++ updates.map fun u => some u.2).drop
        (samples.length + updates.length - 60)) := by
  induction updates generalizing c samples with
  | nil =>
    have h0 : samples.length + 0 - 60 = 0 := by omega
    simp only [applyUpdates, List.map_nil, List.append_nil, List.length_nil, h0, List.drop_zero]
    exact h
  | cons u rest ih =>
    obtain ⟨displayed, price⟩ := u
    have hdu : displayed ticker = true := hd (displayed, price) (List.mem_cons_self _ _)
    have hrest : ∀ u ∈ rest, u.1 ticker = true := fun u hu => hd u (List.mem_cons_of_mem _ hu)
    have hstep := updateStockPrice_history displayed c ticker price samples hdu h
    simp only [applyUpdates]
    by_cases hfull : samples.length + 1 > 60
    · rw [if_pos hfull] at hstep
      cases samples with
      | nil => simp at hfull
      | cons first others =>
        simp only [List.cons_append, List.tail_cons] at hstep
        have hl : (others ++ [some price]).length ≤ 60 := by
          simp only [List.length_append, List.length_cons, List.length_nil] at hlen ⊢
          omega
        rw [ih _ _ hstep hl hrest]
        have e1 : (others ++ [some price]).length + rest.length - 60 = rest.length := by
          simp only [List.length_append, List.length_cons, List.length_nil] at hlen hfull ⊢
          omega
        have e2 : (first :: others).length + ((displayed, price) :: rest).length - 60 =
            rest.length + 1 := by
          simp only [List.length_cons, List.length_nil] at hlen hfull ⊢
          omega
        rw [e1, e2]
        simp only [List.map_cons, List.cons_append, List.drop_succ_cons, List.append_assoc,
          List.singleton_append, List.nil_append]
    · rw [if_neg hfull] at hstep
      have hl : (samples ++ [some price]).length ≤ 60 := by
        simp only [List.length_append, List.length_cons, List.length_nil]
        omega
      rw [ih _ _ hstep hl hrest]
      have e1 : (samples ++ [some price]).length + rest.length =
          samples.length + ((displayed, price) :: rest).length := by
        simp only [List.length_append, List.length_cons, List.length_nil]
        omega
      rw [e1]
      simp only [List.map_cons, List.append_assoc, List.singleton_append, List.cons_append,
        List.nil_append]

/-- C14: when the history of a ticker is a single sample, as `initial_prices` and
`subscription_added` set it, then after any `k` calls of `updateStockPrice` for that ticker
while its card is displayed the history is the last `min(60, k + 1)` of the samples received,
in the order of arrival, and so never longer than 60; one call appends the new price and, when
that makes 61 samples, removes exactly the first. -/
theorem priceHistory_is_last_sixty (c : Client) (ticker : String) (first : Option ℚ)
    (updates : List ((String → Bool) × ℚ)) (h0 : c.priceHistory ticker = some [first])
    (hd : ∀ u ∈ updates, u.1 ticker = true) :
    (∃ history, (applyUpdates c ticker updates).priceHistory ticker = some history ∧
        history = (first :: updates.map fun u => some u.2).drop (updates.length + 1 - 60) ∧
        history.length = min 60 (updates.length + 1) ∧ history.length ≤ 60) ∧
      (∀ (displayed : String → Bool) (c1 : Client) (samples : List (Option ℚ)) (price : ℚ),
        displayed ticker = true → c1.priceHistory ticker = some samples →
        (updateStockPrice displayed c1 ticker price).priceHistory ticker =
          some (if samples.length + 1 > 60 then (samples ++ [some price]).tail
            else samples ++ [some price])) ∧
      (∀ (displayed : String → Bool) (c1 : Client) (price : Option ℚ),
        (handleWebSocketMessage displayed c1
          (Message.subscription_added ticker price)).priceHistory ticker = some [price]) ∧
      (∀ (displayed : String → Bool) (c1 : Client) (prices : List (String × ℚ))
        (subscriptions : List String) (price : ℚ), prices.lookup ticker = some price →
        (handleWebSocketMessage displayed c1
          (Message.initial_prices prices subscriptions)).priceHistory ticker =
            some [some price]) := by
  refine ⟨?_, ?_, ?_, ?_⟩
  · have h := applyUpdates_history ticker updates c [first] h0 (by simp) hd
    have e : [first].length + updates.length - 60 = updates.length + 1 - 60 := by
      simp only [List.length_singleton]
      omega
    rw [e, List.singleton_append] at h
    refine ⟨_, h, rfl, ?_, ?_⟩
    · simp only [List.length_drop, List.length_cons, List.length_map]
      omega
    · simp only [List.length_drop, List.length_cons, List.length_map]
      omega
  · intro displayed c1 samples price hdisp hs
    exact updateStockPrice_history displayed c1 ticker price samples hdisp hs
  · intro displayed c1 price
    simp only [handleWebSocketMessage, Function.update_same]
  · intro displayed c1 prices subscriptions price hp
    simp only [handleWebSocketMessage, hp]

/-- C14, at the sample page: GOOG starts with the sample 100 and takes seventy updates; the
history then holds 60 samples. -/
theorem priceHistory_is_last_sixty_witness :
    sampleClient.priceHistory "GOOG" = some [some 100] ∧
      (∀ u ∈ sampleUpdates, u.1 "GOOG" = true) ∧
      ∃ history, (applyUpdates sampleClient "GOOG" sampleUpdates).priceHistory "GOOG" =
          some history ∧ history.length = 60 := by
  have hd : ∀ u ∈ sampleUpdates, u.1 "GOOG" = true := by
    intro u hu
    simp only [sampleUpdates, List.mem_map] at hu
    obtain ⟨i, _, rfl⟩ := hu
    rfl
  have h0 : sampleClient.priceHistory "GOOG" = some [some 100] := by decide
  obtain ⟨history, h1, _, h3, _⟩ :=
    (priceHistory_is_last_sixty sampleClient "GOOG" (some 100) sampleUpdates h0 hd).1
  refine ⟨h0, hd, history, h1, ?_⟩
  rw [h3]
  simp only [sampleUpdates, List.length_map, List.length_range]
  decide

/-! ## Persistence -/

theorem JSMap.mem_of_get {K V : Type} [DecidableEq K] (m : JSMap K V) (k : K) (v : V)
    (h : m.get k = some v) : (k, v) ∈ m.entries := by
  unfold JSMap.get at h
  cases hf : m.entries.find? (fun e => decide (e.1 = k)) with
  | none => rw [hf] at h; cases h
  | some e =>
    rw [hf] at h
    have hk : e.1 = k := by simpa using List.find?_some hf
    have hv : e.2 = v := by simpa using h
    have he : e = (k, v) := by rw [← hk, ← hv]
    rw [← he]
    exact List.mem_of_find?_eq_some hf

theorem JSMap.not_mem_keys_of_get {K V : Type} [DecidableEq K] (m : JSMap K V) (k : K)
    (h : m.get k = none) : k ∉ m.entries.map Prod.fst := by
  simp only [JSMap.get, Option.map_eq_none', List.find?_eq_none] at h
  intro hk
  obtain ⟨e, he, rfl⟩ := List.mem_map.mp hk
  exact h e he (by simp)

theorem JSSet.foldl_add_elems (l : List String) (acc : JSSet)
    (h : (acc.elems ++ l).Nodup) : (l.foldl JSSet.add acc).elems = acc.elems ++ l := by
  induction l generalizing acc with
  | nil => simp
  | cons t rest ih =>
    have hnot : t ∉ acc.elems := by
      intro hmem
      have := (List.nodup_append.mp h).2.2
      exact this hmem (List.mem_cons_self _ _)
    have hadd : (acc.add t).elems = acc.elems ++ [t] := by
      unfold JSSet.add
      simp only [dif_neg hnot]
    rw [List.foldl_cons, ih (acc.add t) (by rw [hadd]; simpa using h), hadd]
    simp

/-- A `Set` built from the array of a `Set` is that `Set`, in the same order. -/
theorem JSSet.ofArray_toArray (s : JSSet) : JSSet.ofArray s.toArray = s := by
  apply JSSet.ext_elems
  unfold JSSet.ofArray JSSet.toArray
  rw [JSSet.foldl_add_elems s.elems JSSet.empty (by simpa [JSSet.empty] using s.nodup)]
  simp [JSSet.empty]

theorem loadUserData_cons (entry : String × List String) (rest : List (String × List String))
    (s : State) :
    loadUserData (entry :: rest) s =
      loadUserData rest
        { s with
          heap := Function.update s.heap s.nextRef (JSSet.ofArray entry.2)
          nextRef := s.nextRef + 1
          users := s.users.set entry.1 ⟨entry.1, s.nextRef⟩ } := rfl

/-- Loading leaves a user alone whose key is not in the document. -/
theorem loadUserData_keeps (data : List (String × List String)) (s : State) (key : String)
    (user : User) (hk : key ∉ data.map Prod.fst) (hu : s.users.get key = some user)
    (hlt : user.subscriptions < s.nextRef) :
    (loadUserData data s).users.get key = some user ∧
      (loadUserData data s).heap user.subscriptions = s.heap user.subscriptions := by
  induction data generalizing s with
  | nil => exact ⟨hu, rfl⟩
  | cons entry rest ih =>
    rw [List.map_cons, List.mem_cons, not_or] at hk
    rw [loadUserData_cons]
    obtain ⟨h1, h2⟩ := ih
      { s with
        heap := Function.update s.heap s.nextRef (JSSet.ofArray entry.2)
        nextRef := s.nextRef + 1
        users := s.users.set entry.1 ⟨entry.1, s.nextRef⟩ }
      hk.2 ((JSMap.get_set_ne _ _ _ _ hk.1).trans hu) (Nat.lt_succ_of_lt hlt)
    exact ⟨h1, h2.trans (Function.update_noteq (Nat.ne_of_lt hlt) _ _)⟩

theorem loadUserData_absent (data : List (String × List String)) (s : State) (key : String)
    (hk : key ∉ data.map Prod.fst) (hu : s.users.get key = none) :
    (loadUserData data s).users.get key = none := by
  induction data generalizing s with
  | nil => exact hu
  | cons entry rest ih =>
    rw [List.map_cons, List.mem_cons, not_or] at hk
    rw [loadUserData_cons]
    exact ih
      { s with
        heap := Function.update s.heap s.nextRef (JSSet.ofArray entry.2)
        nextRef := s.nextRef + 1
        users := s.users.set entry.1 ⟨entry.1, s.nextRef⟩ }
      hk.2 ((JSMap.get_set_ne _ _ _ _ hk.1).trans hu)

/-- Loading a document with distinct keys gives each key a user whose `Set` is built from the
array of that key. -/
theorem loadUserData_get (data : List (String × List String)) (s : State) (key : String)
    (subs : List String) (hn : (data.map Prod.fst).Nodup) (hm : (key, subs) ∈ data) :
    ∃ user, (loadUserData data s).users.get key = some user ∧
      (loadUserData data s).heap user.subscriptions = JSSet.ofArray subs := by
  induction data generalizing s with
  | nil => cases hm
  | cons entry rest ih =>
    rw [List.map_cons, List.nodup_cons] at hn
    rw [loadUserData_cons]
    rcases List.mem_cons.mp hm with he | hrest
    · subst he
      obtain ⟨h1, h2⟩ := loadUserData_keeps rest
        { s with
          heap := Function.update s.heap s.nextRef (JSSet.ofArray subs)
          nextRef := s.nextRef + 1
          users := s.users.set key ⟨key, s.nextRef⟩ }
        key ⟨key, s.nextRef⟩ hn.1 (JSMap.get_set_self _ _ _) (Nat.lt_succ_self _)
      exact ⟨⟨key, s.nextRef⟩, h1, h2.trans (Function.update_same _ _ _)⟩
    · exact ih _ hn.2 hrest

theorem mem_saveUserData (s : State) (key : String) (user : User)
    (hu : s.users.get key = some user) (hk : key ≠ "__proto__") :
    (key, (⟨user.email, (s.heap user.subscriptions).toArray⟩ : UserData)) ∈ saveUserData s := by
  unfold saveUserData
  refine List.mem_map.mpr ⟨(key, user), List.mem_filter.mpr ⟨JSMap.mem_of_get _ _ _ hu, ?_⟩, rfl⟩
  simpa using hk

theorem keys_saveUserData (s : State) :
    (saveUserData s).map Prod.fst =
      (s.users.entries.filter fun entry => decide (entry.1 ≠ "__proto__")).map Prod.fst := by
  unfold saveUserData
  rw [List.map_map]
  rfl

/-- The round trip for the keys that `saveUserData` writes: when no key of `users` is
`__proto__`, loading the saved document, its properties in any order, into an empty registry
gives exactly the keys of `users`, each with a `Set` equal to the saved one. -/
theorem save_then_load_of_ordinary_keys (s : State) (rand : String → ℚ)
    (doc : List (String × UserData)) (hperm : doc.Perm (saveUserData s))
    (hkeys : ∀ key user, s.users.get key = some user → key ≠ "__proto__") (key : String) :
    (init rand (readDocument doc)).users.has key = s.users.has key ∧
      ∀ user, s.users.get key = some user →
        ∃ loaded, (init rand (readDocument doc)).users.get key = some loaded ∧
          (init rand (readDocument doc)).heap loaded.subscriptions =
            s.heap user.subscriptions := by
  have hkeysdoc : (readDocument doc).map Prod.fst = doc.map Prod.fst := by
    unfold readDocument
    rw [List.map_map]
    rfl
  have hnodup : ((readDocument doc).map Prod.fst).Nodup := by
    rw [hkeysdoc, (hperm.map Prod.fst).nodup_iff, keys_saveUserData]
    exact nodup_keys_filter _ _ s.users.nodup
  have hfound : ∀ user, s.users.get key = some user →
      ∃ loaded, (init rand (readDocument doc)).users.get key = some loaded ∧
        (init rand (readDocument doc)).heap loaded.subscriptions =
          s.heap user.subscriptions := by
    intro user hu
    have hmem : (key, (s.heap user.subscriptions).toArray) ∈ readDocument doc := by
      unfold readDocument
      exact List.mem_map.mpr ⟨_, hperm.mem_iff.mpr
        (mem_saveUserData s key user hu (hkeys key user hu)), rfl⟩
    obtain ⟨loaded, h1, h2⟩ := loadUserData_get (readDocument doc) _ key _ hnodup hmem
    exact ⟨loaded, h1, h2.trans (JSSet.ofArray_toArray _)⟩
  refine ⟨?_, hfound⟩
  cases hu : s.users.get key with
  | some user =>
    obtain ⟨loaded, h1, _⟩ := hfound user hu
    simp [JSMap.has, h1, hu]
  | none =>
    have hnot : key ∉ (readDocument doc).map Prod.fst := by
      rw [hkeysdoc, (hperm.map Prod.fst).mem_iff, keys_saveUserData]
      intro hmem
      obtain ⟨e, he, hek⟩ := List.mem_map.mp hmem
      exact JSMap.not_mem_keys_of_get _ _ hu
        (List.mem_map.mpr ⟨e, (List.mem_filter.mp he).1, hek⟩)
    have h1 : (init rand (readDocument doc)).users.get key = none :=
      loadUserData_absent (readDocument doc) _ key hnot (JSMap.get_empty key)
    simp [JSMap.has, h1, hu]

/-- C13 fails on the code for a registry with the key `__proto__`: the server has loaded such a
user, who holds GOOG, next to a second user; the saved document holds the second user only,
and loading it into an empty registry gives a registry without the key `__proto__`. -/
theorem save_drops_proto_key :
    Reachable protoState ∧
      protoState.users.get "__proto__" = some ⟨"__proto__", 0⟩ ∧
      (protoState.heap 0).elems = ["GOOG"] ∧
      saveUserData protoState = [("a@x.com", ⟨"a@x.com", ["TSLA"]⟩)] ∧
      (init (fun _ => 0) (readDocument (saveUserData protoState))).users.get "__proto__"
        = none ∧
      (init (fun _ => 0) (readDocument (saveUserData protoState))).users.has "a@x.com"
        = true :=
  ⟨⟨fun _ => 0, [("__proto__", ["GOOG"]), ("a@x.com", ["TSLA"])], [], rfl⟩,
    by decide, by decide, by decide, by decide, by decide⟩

end StockBroker
